import Mathlib

/-!
Verification development for the RTLola front end.

The development shallowly embeds the two subsystems of the repository:
the AST builder of `src/parse.rs` and the dialect classifier of
`src/analysis/lola_version.rs`, together with the AST data model they
share.  The repository's `ast.rs`, its `reporting` module, the pest
grammar engine and the pest `PrecClimber` are not part of the sources;
where one of them is needed it is modelled from the specification and
the uses visible in the sources, and its doc comment says so.
-/

namespace RTLola

/-- A span marks a range in a file; start and end positions are byte
offsets (`src/parse.rs`, `struct Span`).  The source field `end` is a
Lean keyword and is rendered here as `stop`. -/
structure Span where
  start : Nat
  stop : Nat
deriving DecidableEq, Repr

/-- A symbol is a reference to an entry in a `SymbolTable`
(`src/parse.rs`, `struct Symbol(u32)`).  The `u32` payload is modelled
as a natural number; the cast `strings.len() as u32` performed by the
table is modelled by an explicit reduction modulo `2 ^ 32`. -/
structure Symbol where
  val : Nat
deriving DecidableEq, Repr

/-- Rust's `Symbol::to_usize` (`src/parse.rs`). -/
def Symbol.to_usize (s : Symbol) : Nat := s.val

/-- A `SymbolTable` is a bi-directional mapping between strings and
symbols (`src/parse.rs`).  The Rust `HashMap<Box<str>, Symbol>` is
modelled as an association list queried with `find?`, and the
`Vec<Box<str>>` as a list. -/
structure SymbolTable where
  names : List (String × Symbol)
  strings : List String
deriving DecidableEq, Repr

/-- `SymbolTable::new` (`src/parse.rs`). -/
def SymbolTable.new : SymbolTable := ⟨[], []⟩

/-- `SymbolTable::get_symbol_for` (`src/parse.rs`): return the existing
symbol for a known string, otherwise allocate `Symbol(strings.len() as
u32)`, record the string, and return the fresh symbol.  The mutation of
`self` is rendered by returning the updated table. -/
def SymbolTable.get_symbol_for (t : SymbolTable) (string : String) :
    Symbol × SymbolTable :=
  match t.names.find? (fun kv => kv.1 = string) with
  | some kv => (kv.2, t)
  | none =>
    let name : Symbol := ⟨t.strings.length % 2 ^ 32⟩
    (name, ⟨t.names ++ [(string, name)], t.strings ++ [string]⟩)

/-- `SymbolTable::get_string` (`src/parse.rs`); the Rust version indexes
`strings` and panics on an unknown symbol, which is rendered as an
`Option`. -/
def SymbolTable.get_string (t : SymbolTable) (symbol : Symbol) :
    Option String :=
  t.strings.get? symbol.to_usize

/-- An identifier with its source span (`src/parse.rs`, `struct Ident`). -/
structure Ident where
  name : Symbol
  span : Span
deriving DecidableEq, Repr

/-- `Ident::new` (`src/parse.rs`). -/
def Ident.new (name : Symbol) (span : Span) : Ident := ⟨name, span⟩

/-- Modelled from the spec: the parenthesis marker node of the AST
(`ast.rs` is not under `src/`); `src/parse.rs` constructs it with
`Parenthesis::new(span)`. -/
structure Parenthesis where
  span : Span
deriving DecidableEq, Repr

/-- `Parenthesis::new`, as used by `src/parse.rs`. -/
def Parenthesis.new (span : Span) : Parenthesis := ⟨span⟩

/-- Modelled from the spec: time units of real-time offsets (`ast.rs`
is not under `src/`); the variant names are the ones constructed by
`src/parse.rs`. -/
inductive TimeUnit where
  | NanoSecond
  | MicroSecond
  | MilliSecond
  | Second
  | Minute
  | Hour
  | Day
  | Week
  | Year
deriving DecidableEq, Repr

/-- Modelled from the spec: sliding-window aggregation operations
(`ast.rs` is not under `src/`); variant names as constructed by
`src/parse.rs`. -/
inductive WindowOperation where
  | Sum
  | Product
  | Average
  | Count
  | Integral
deriving DecidableEq, Repr

/-- Modelled from the spec: binary operators (`ast.rs` is not under
`src/`); variant names as constructed by `src/parse.rs`. -/
inductive BinOp where
  | Add
  | Sub
  | Mul
  | Div
  | Rem
  | Pow
  | And
  | Or
  | Lt
  | Le
  | Gt
  | Ge
  | Eq
  | Ne
deriving DecidableEq, Repr

/-- Modelled from the spec: unary operators (`ast.rs` is not under
`src/`); variant names as constructed by `src/parse.rs`. -/
inductive UnOp where
  | Not
  | Neg
deriving DecidableEq, Repr

/-- Modelled from the spec: the closed table of function names
(`ast.rs` is not under `src/`); variant names as constructed by
`src/parse.rs`. -/
inductive FunctionKind where
  | NthRoot
  | Sqrt
  | Projection
  | Sin
  | Cos
  | Tan
  | Arcsin
  | Arccos
  | Arctan
  | Exp
  | Floor
  | Ceil
deriving DecidableEq, Repr

/-- Modelled from the spec: the dialect enumeration (`ast.rs` is not
under `src/`); the three variants and their names are exactly the ones
matched by `src/analysis/lola_version.rs`. -/
inductive LanguageSpec where
  | Classic
  | Lola2
  | RTLola
deriving DecidableEq, Repr

mutual

/-- Modelled from the spec: a literal value with its span (`ast.rs` is
not under `src/`); the variants are the ones constructed by
`parse_literal` in `src/parse.rs`.  The `f64` payload of a float
literal cannot be embedded and is kept as its raw source text, which no
claim inspects. -/
inductive Literal where
  | mk (kind : LitKind) (span : Span)

/-- Modelled from the spec: the tag of a literal (`ast.rs` is not under
`src/`). -/
inductive LitKind where
  | Int (value : Int)
  | Float (repr : String)
  | Bool (value : Bool)
  | Tuple (elems : LitList)

/-- A bespoke list of literals, isomorphic to `List Literal`, used to
keep the mutual recursion of the literal tree structural. -/
inductive LitList where
  | nil
  | cons (head : Literal) (tail : LitList)

end

/-- `Literal::new_int`, as used by `src/parse.rs`. -/
def Literal.new_int (value : Int) (span : Span) : Literal :=
  .mk (.Int value) span

/-- `Literal::new_float`, as used by `src/parse.rs`; the `f64` payload
is kept as raw text. -/
def Literal.new_float (repr : String) (span : Span) : Literal :=
  .mk (.Float repr) span

/-- `Literal::new_bool`, as used by `src/parse.rs`. -/
def Literal.new_bool (value : Bool) (span : Span) : Literal :=
  .mk (.Bool value) span

/-- `Literal::new_tuple`, as used by `src/parse.rs`. -/
def Literal.new_tuple (elems : LitList) (span : Span) : Literal :=
  .mk (.Tuple elems) span

/-- Modelled from the spec: a type annotation, either a simple named
type or a tuple of types (`ast.rs` is not under `src/`); the two forms
are the ones constructed by `parse_type` in `src/parse.rs`. -/
inductive AstType where
  | Simple (name : Symbol) (span : Span)
  | Tuple (inner : List AstType) (span : Span)

/-- `Type::new_simple`, as used by `src/parse.rs` (the source type is
named `Type`, a Lean keyword, rendered here as `AstType`). -/
def AstType.new_simple (name : Symbol) (span : Span) : AstType :=
  .Simple name span

/-- `Type::new_tuple`, as used by `src/parse.rs`. -/
def AstType.new_tuple (inner : List AstType) (span : Span) : AstType :=
  .Tuple inner span

/-- Modelled from the spec: a parameter of a parameterized stream
declaration (`ast.rs` is not under `src/`); only emptiness of the
parameter list is ever inspected by the sources. -/
structure Parameter where
  name : Ident
  ty : Option AstType

mutual

/-- Modelled from the spec: an expression node carrying its kind and
span (`ast.rs` is not under `src/`); the variant set is exactly the one
matched exhaustively by `analyse_expression` in
`src/analysis/lola_version.rs` and constructed by `src/parse.rs`. -/
inductive Expression where
  | mk (kind : ExpressionKind) (span : Span)

/-- Modelled from the spec: the closed set of expression variants
(`ast.rs` is not under `src/`). -/
inductive ExpressionKind where
  | Lit (l : Literal)
  | Ident (i : Ident)
  | Default (target : Expression) (default : Expression)
  | Lookup (inst : StreamInstance) (offset : Offset)
      (aggregation : Option WindowOperation)
  | Binary (op : BinOp) (lhs : Expression) (rhs : Expression)
  | Unary (op : UnOp) (operand : Expression)
  | Ite (condition : Expression) (if_case : Expression)
      (else_case : Expression)
  | ParenthesizedExpression (opening : Option Parenthesis)
      (inner : Expression) (closing : Option Parenthesis)
  | MissingExpression
  | Tuple (elems : ExprList)
  | Function (kind : FunctionKind) (type_args : List AstType)
      (arguments : ExprList)
  | Field (expr : Expression) (field : Ident)
  | Method (expr : Expression) (name : Ident) (type_args : List AstType)
      (arguments : ExprList)

/-- Modelled from the spec: a stream instance, a stream identifier plus
argument expressions (`ast.rs` is not under `src/`); constructed by
`parse_stream_instance` in `src/parse.rs`. -/
inductive StreamInstance where
  | mk (stream_identifier : Ident) (arguments : ExprList)

/-- Modelled from the spec: a lookup offset, either discrete or
real-time (`ast.rs` is not under `src/`); the two variants are the ones
matched by `analyse_expression`. -/
inductive Offset where
  | DiscreteOffset (expr : Expression)
  | RealTimeOffset (expr : Expression) (unit : TimeUnit)

/-- A bespoke list of expressions, isomorphic to `List Expression`,
used to keep the mutual recursion of the expression tree structural. -/
inductive ExprList where
  | nil
  | cons (head : Expression) (tail : ExprList)

end

/-- `Expression::new`, as used by `src/parse.rs`. -/
def Expression.new (kind : ExpressionKind) (span : Span) : Expression :=
  .mk kind span

/-- The span accessor of an expression (the `AstNode::span` method used
by `analyse_expression`). -/
def Expression.span : Expression → Span
  | .mk _ s => s

/-- The kind accessor of an expression. -/
def Expression.kind : Expression → ExpressionKind
  | .mk k _ => k

/-- Node identifiers are assigned externally by the `id_assignment`
pass (not under `src/`); they are modelled as natural numbers. -/
abbrev NodeId := Nat

/-- Modelled from the spec: a constant declaration (`ast.rs` is not
under `src/`); the field shape is the one constructed by
`parse_constant` in `src/parse.rs`. -/
structure Constant where
  name : Option Ident
  ty : Option AstType
  literal : Option Literal
  span : Span

/-- Modelled from the spec: an input stream declaration (`ast.rs` is
not under `src/`).  `src/analysis/lola_version.rs` reads `_id`, `name`
and `params`; `src/parse.rs` constructs `name`, `ty` and `span` and
leaves the parameter list to the grammar's `ParamList` (not consumed by
`parse_inputs`) and `_id` to the external `id_assignment` pass. -/
structure Input where
  _id : NodeId
  name : Ident
  params : List Parameter
  ty : AstType
  span : Span

/-- Modelled from the spec: an output stream declaration (`ast.rs` is
not under `src/`), with the fields read by the two source files. -/
structure Output where
  _id : NodeId
  name : Ident
  params : List Parameter
  ty : AstType
  expression : Expression
  span : Span

/-- Modelled from the spec: a trigger declaration (`ast.rs` is not
under `src/`), with the fields constructed by `parse_trigger` and read
by the classifier. -/
structure Trigger where
  _id : NodeId
  name : Option Ident
  expression : Expression
  message : Option Symbol
  span : Span

/-- Modelled from the spec: the whole specification (`ast.rs` is not
under `src/`); the field names `constants`, `inputs`, `outputs`,
`trigger`, `language` and `symbols` are the ones used by
`src/parse.rs` and `src/analysis/lola_version.rs`. -/
structure LolaSpec where
  language : Option LanguageSpec
  constants : List Constant
  inputs : List Input
  outputs : List Output
  trigger : List Trigger
  symbols : SymbolTable

/-- `LolaSpec::new`, as used by `src/parse.rs`. -/
def LolaSpec.new : LolaSpec :=
  ⟨none, [], [], [], [], SymbolTable.new⟩

/-- Modelled from the spec: the diagnostics sink (`reporting.rs` is not
under `src/`); only its emitted-error counter is read by the
classifier. -/
structure Handler where
  emitted_errors : Nat

/-- The reason type of the classifier
(`src/analysis/lola_version.rs`, `type WhyNot = (Span, String)`). -/
def WhyNot := Span × String

/-- The per-stream tracker of disqualifying facts
(`src/analysis/lola_version.rs`, `struct VersionTracker`). -/
structure VersionTracker where
  cannot_be_classic : Option WhyNot
  cannot_be_lola2 : Option WhyNot

/-- `VersionTracker::new` (`src/analysis/lola_version.rs`). -/
def VersionTracker.new : VersionTracker := ⟨none, none⟩

/-- `VersionTracker::from_stream` (`src/analysis/lola_version.rs`). -/
def VersionTracker.from_stream (is_not_parameterized : Option WhyNot) :
    VersionTracker :=
  ⟨is_not_parameterized, none⟩

mutual

/-- The recursive expression walk of the classifier
(`src/analysis/lola_version.rs`, `fn analyse_expression`).  The `&mut
VersionTracker` is rendered by threading the tracker; the iteration
over nested expression lists is rendered by the companion
`analyse_expression_list`. -/
def analyse_expression (version_tracker : VersionTracker)
    (expr : Expression) (toplevel_in_trigger : Bool) : VersionTracker :=
  match expr with
  | .mk kind span =>
    match kind with
    | .Lit _ => version_tracker
    | .Ident _ => version_tracker
    | .Default target default =>
      analyse_expression
        (analyse_expression version_tracker target false) default false
    | .Lookup _ offset _ =>
      match offset with
      | .DiscreteOffset oexpr =>
        analyse_expression version_tracker oexpr false
      | .RealTimeOffset oexpr _ =>
        let vt := analyse_expression version_tracker oexpr false
        { vt with
          cannot_be_lola2 :=
            some (span, "Real time offset - no Lola2"),
          cannot_be_classic :=
            some (span, "Real time offset - no ClassicLola") }
    | .Binary _ left right =>
      analyse_expression
        (analyse_expression version_tracker left false) right false
    | .Unary _ nested =>
      analyse_expression version_tracker nested false
    | .Ite condition if_case else_case =>
      analyse_expression
        (analyse_expression
          (analyse_expression version_tracker condition false)
          if_case false)
        else_case false
    | .ParenthesizedExpression _ nested _ =>
      analyse_expression version_tracker nested false
    | .MissingExpression => version_tracker
    | .Tuple nested_exprs =>
      analyse_expression_list version_tracker nested_exprs
    | .Function _ _ arguments =>
      analyse_expression_list version_tracker arguments
    | .Field fexpr _ => analyse_expression version_tracker fexpr false
    | .Method mexpr _ _ args =>
      analyse_expression_list
        (analyse_expression version_tracker mexpr false) args

/-- The `iter().for_each` loops of `analyse_expression` over tuple,
function and method argument lists. -/
def analyse_expression_list (version_tracker : VersionTracker)
    (exprs : ExprList) : VersionTracker :=
  match exprs with
  | .nil => version_tracker
  | .cons e tl =>
    analyse_expression_list (analyse_expression version_tracker e false) tl

end

/-- The per-node result table of the classifier
(`src/analysis/lola_version.rs`, `type LolaVersionTable =
HashMap<NodeId, LanguageSpec>`), modelled as a function to an optional
dialect. -/
def LolaVersionTable := NodeId → Option LanguageSpec

/-- The empty table (`HashMap::new`). -/
def LolaVersionTable.empty : LolaVersionTable := fun _ => none

/-- `HashMap::insert`: later insertions overwrite earlier ones at the
same key. -/
def LolaVersionTable.insert (m : LolaVersionTable) (k : NodeId)
    (v : LanguageSpec) : LolaVersionTable :=
  fun k2 => if k2 = k then some v else m k2

/-- The `self.result[id]` indexing used by the reconciliation walks; the
Rust index operator panics on a missing key, rendered as an error. -/
def LolaVersionTable.index (m : LolaVersionTable) (k : NodeId) :
    Except String LanguageSpec :=
  match m k with
  | some v => .ok v
  | none => .error "no entry found for key"

/-- The classifier state (`src/analysis/lola_version.rs`, `struct
LolaVersionAnalysis`); the handler reference is passed separately to
`analyse`, the only method that reads it. -/
structure LolaVersionAnalysis where
  result : LolaVersionTable

/-- `LolaVersionAnalysis::new` (`src/analysis/lola_version.rs`). -/
def LolaVersionAnalysis.new : LolaVersionAnalysis :=
  ⟨LolaVersionTable.empty⟩

/-- `LolaVersionAnalysis::analyse_input`
(`src/analysis/lola_version.rs`). -/
def LolaVersionAnalysis.analyse_input (self : LolaVersionAnalysis)
    (input : Input) : LolaVersionAnalysis :=
  if input.params.isEmpty then
    { self with result := self.result.insert input._id .Classic }
  else
    { self with result := self.result.insert input._id .Lola2 }

/-- `LolaVersionAnalysis::analyse_output`
(`src/analysis/lola_version.rs`). -/
def LolaVersionAnalysis.analyse_output (self : LolaVersionAnalysis)
    (output : Output) : LolaVersionAnalysis :=
  let is_not_parameterized : Option WhyNot :=
    if output.params.isEmpty then none
    else some (output.name.span, "Parameterized stream")
  let version_tracker := VersionTracker.from_stream is_not_parameterized
  let version_tracker :=
    analyse_expression version_tracker output.expression false
  if version_tracker.cannot_be_classic.isNone then
    { self with result := self.result.insert output._id .Classic }
  else if version_tracker.cannot_be_lola2.isNone then
    { self with result := self.result.insert output._id .Lola2 }
  else
    { self with result := self.result.insert output._id .RTLola }

/-- `LolaVersionAnalysis::analyse_trigger`
(`src/analysis/lola_version.rs`). -/
def LolaVersionAnalysis.analyse_trigger (self : LolaVersionAnalysis)
    (trigger : Trigger) : LolaVersionAnalysis :=
  let version_tracker := VersionTracker.new
  let version_tracker :=
    analyse_expression version_tracker trigger.expression true
  if version_tracker.cannot_be_classic.isNone then
    { self with result := self.result.insert trigger._id .Classic }
  else if version_tracker.cannot_be_lola2.isNone then
    { self with result := self.result.insert trigger._id .Lola2 }
  else
    { self with result := self.result.insert trigger._id .RTLola }

/-- The three per-node loops at the start of
`LolaVersionAnalysis::analyse` (`src/analysis/lola_version.rs`),
factored into a named first pass. -/
def LolaVersionAnalysis.first_pass (self : LolaVersionAnalysis)
    (spec : LolaSpec) : LolaVersionAnalysis :=
  let self := spec.inputs.foldl (fun s input => s.analyse_input input) self
  let self :=
    spec.outputs.foldl (fun s output => s.analyse_output output) self
  spec.trigger.foldl (fun s trigger => s.analyse_trigger trigger) self

/-- `LolaVersionAnalysis::rule_out_versions_based_on_inputs`
(`src/analysis/lola_version.rs`); the `for` loop is rendered as
recursion over the input list, the `unreachable!()` branch as an
error. -/
def LolaVersionAnalysis.rule_out_versions_based_on_inputs
    (self : LolaVersionAnalysis) (inputs : List Input)
    (reason_against_classic_lola : Option WhyNot) :
    Except String (Option WhyNot) :=
  match inputs with
  | [] => .ok reason_against_classic_lola
  | input :: rest => do
    let v ← self.result.index input._id
    match v with
    | .Classic =>
      self.rule_out_versions_based_on_inputs rest
        reason_against_classic_lola
    | .Lola2 =>
      self.rule_out_versions_based_on_inputs rest
        (if reason_against_classic_lola.isNone then
          some (input.name.span, "Parameterized input stream")
        else reason_against_classic_lola)
    | .RTLola => .error "unreachable"

/-- `LolaVersionAnalysis::rule_out_versions_based_on_outputs`
(`src/analysis/lola_version.rs`).  The `format!` reason texts embed the
output's symbol number in place of the un-modelled string payload. -/
def LolaVersionAnalysis.rule_out_versions_based_on_outputs
    (self : LolaVersionAnalysis) (outputs : List Output)
    (reason_against_classic_lola reason_against_lola2 : Option WhyNot) :
    Except String (Option WhyNot × Option WhyNot) :=
  match outputs with
  | [] => .ok (reason_against_classic_lola, reason_against_lola2)
  | output :: rest => do
    let span := output.name.span
    let v ← self.result.index output._id
    match v with
    | .Classic =>
      self.rule_out_versions_based_on_outputs rest
        reason_against_classic_lola reason_against_lola2
    | .Lola2 =>
      self.rule_out_versions_based_on_outputs rest
        (if reason_against_classic_lola.isNone then
          some (span,
            "Classic Lola is not possible due to " ++
              toString output.name.name.val ++ " being a Lola2 stream.")
        else reason_against_classic_lola)
        reason_against_lola2
    | .RTLola =>
      self.rule_out_versions_based_on_outputs rest
        (if reason_against_classic_lola.isNone then
          some (span,
            "Classic Lola is not possible due to " ++
              toString output.name.name.val ++ " being a RTLola stream.")
        else reason_against_classic_lola)
        (if reason_against_lola2.isNone then
          some (span,
            "Lola2 is not possible due to " ++
              toString output.name.name.val ++ " being a RTLola stream.")
        else reason_against_lola2)

/-- `LolaVersionAnalysis::rule_out_versions_based_on_triggers`
(`src/analysis/lola_version.rs`). -/
def LolaVersionAnalysis.rule_out_versions_based_on_triggers
    (self : LolaVersionAnalysis) (triggers : List Trigger)
    (reason_against_classic_lola reason_against_lola2 : Option WhyNot) :
    Except String (Option WhyNot × Option WhyNot) :=
  match triggers with
  | [] => .ok (reason_against_classic_lola, reason_against_lola2)
  | trigger :: rest => do
    let span :=
      match trigger.name with
      | none => trigger.span
      | some trigger_name => trigger_name.span
    let v ← self.result.index trigger._id
    match v with
    | .Classic =>
      self.rule_out_versions_based_on_triggers rest
        reason_against_classic_lola reason_against_lola2
    | .Lola2 =>
      self.rule_out_versions_based_on_triggers rest
        (if reason_against_classic_lola.isNone then
          some (span,
            "Classic Lola is not possible due to this being a Lola2 trigger.")
        else reason_against_classic_lola)
        reason_against_lola2
    | .RTLola =>
      self.rule_out_versions_based_on_triggers rest
        (if reason_against_classic_lola.isNone then
          some (span,
            "Classic Lola is not possible due to this being a RTLola trigger.")
        else reason_against_classic_lola)
        (if reason_against_lola2.isNone then
          some (span,
            "Lola2 is not possible due to this being a RTLola trigger.")
        else reason_against_lola2)

/-- The body of `LolaVersionAnalysis::analyse`
(`src/analysis/lola_version.rs`) with its two reads of
`handler.emitted_errors()` exposed as the parameters
`number_of_previous_errors` (the read before the first pass) and
`number_of_errors_after` (the read after it): the diagnostics sink is
an external collaborator, and this variant makes the contamination
check provable for an arbitrary pair of reads. -/
def LolaVersionAnalysis.analyse_with_counts (self : LolaVersionAnalysis)
    (number_of_previous_errors number_of_errors_after : Nat)
    (spec : LolaSpec) :
    Except String (LolaVersionAnalysis × Option LanguageSpec) := do
  let self := self.first_pass spec
  if number_of_previous_errors ≠ number_of_errors_after then
    return (self, none)
  let reason_against_classic_lola : Option WhyNot := none
  let reason_against_lola2 : Option WhyNot := none
  let reason_against_classic_lola ←
    self.rule_out_versions_based_on_inputs spec.inputs
      reason_against_classic_lola
  let (reason_against_classic_lola, reason_against_lola2) ←
    self.rule_out_versions_based_on_outputs spec.outputs
      reason_against_classic_lola reason_against_lola2
  let (reason_against_classic_lola, reason_against_lola2) ←
    self.rule_out_versions_based_on_triggers spec.trigger
      reason_against_classic_lola reason_against_lola2
  if reason_against_classic_lola.isNone then
    return (self, some .Classic)
  if reason_against_lola2.isNone then
    return (self, some .Lola2)
  return (self, some .RTLola)

/-- `LolaVersionAnalysis::analyse` (`src/analysis/lola_version.rs`).
The first pass calls no method of the handler, so in the
single-threaded execution modelled here both counter reads observe the
same value `handler.emitted_errors`. -/
def LolaVersionAnalysis.analyse (self : LolaVersionAnalysis)
    (handler : Handler) (spec : LolaSpec) :
    Except String (LolaVersionAnalysis × Option LanguageSpec) :=
  self.analyse_with_counts handler.emitted_errors handler.emitted_errors
    spec

/-- The returned global dialect of `analyse`, discarding the mutated
classifier state. -/
def LolaVersionAnalysis.analyse_version (self : LolaVersionAnalysis)
    (handler : Handler) (spec : LolaSpec) :
    Except String (Option LanguageSpec) :=
  (self.analyse handler spec).map Prod.snd

mutual

/-- A real-time-offset lookup occurs somewhere in the positions that
`analyse_expression` visits: default branches, discrete-offset
expressions, binary, unary and ternary operands, parenthesized inner
expressions, tuple elements, function and method arguments and method
receivers — but not inside the argument expressions of a stream
instance, which the walk does not visit. -/
def containsRT : Expression → Bool
  | .mk kind _ =>
    match kind with
    | .Lit _ => false
    | .Ident _ => false
    | .Default t d => containsRT t || containsRT d
    | .Lookup _ (.DiscreteOffset oexpr) _ => containsRT oexpr
    | .Lookup _ (.RealTimeOffset _ _) _ => true
    | .Binary _ l r => containsRT l || containsRT r
    | .Unary _ n => containsRT n
    | .Ite c t e => containsRT c || containsRT t || containsRT e
    | .ParenthesizedExpression _ n _ => containsRT n
    | .MissingExpression => false
    | .Tuple es => containsRTList es
    | .Function _ _ args => containsRTList args
    | .Field e _ => containsRT e
    | .Method e _ _ args => containsRT e || containsRTList args

/-- List companion of `containsRT`. -/
def containsRTList : ExprList → Bool
  | .nil => false
  | .cons e tl => containsRT e || containsRTList tl

end

mutual

/-- A real-time-offset lookup occurs at any nesting depth whatsoever,
including inside the argument expressions of a stream instance.  This
is the notion used by the claim under scrutiny; it differs from
`containsRT` exactly on stream-instance arguments. -/
def containsRTDeep : Expression → Bool
  | .mk kind _ =>
    match kind with
    | .Lit _ => false
    | .Ident _ => false
    | .Default t d => containsRTDeep t || containsRTDeep d
    | .Lookup (.mk _ args) (.DiscreteOffset oexpr) _ =>
      containsRTDeep oexpr || containsRTDeepList args
    | .Lookup _ (.RealTimeOffset _ _) _ => true
    | .Binary _ l r => containsRTDeep l || containsRTDeep r
    | .Unary _ n => containsRTDeep n
    | .Ite c t e => containsRTDeep c || containsRTDeep t || containsRTDeep e
    | .ParenthesizedExpression _ n _ => containsRTDeep n
    | .MissingExpression => false
    | .Tuple es => containsRTDeepList es
    | .Function _ _ args => containsRTDeepList args
    | .Field e _ => containsRTDeep e
    | .Method e _ _ args => containsRTDeep e || containsRTDeepList args

/-- List companion of `containsRTDeep`. -/
def containsRTDeepList : ExprList → Bool
  | .nil => false
  | .cons e tl => containsRTDeep e || containsRTDeepList tl

end

/-- The dialect that `analyse_input` records for an input: `Classic`
for an unparameterized input, `Lola2` otherwise. -/
def input_version (input : Input) : LanguageSpec :=
  if input.params.isEmpty then .Classic else .Lola2

/-- The dialect that `analyse_output` records for an output. -/
def output_version (output : Output) : LanguageSpec :=
  if containsRT output.expression then .RTLola
  else if output.params.isEmpty then .Classic
  else .Lola2

/-- The dialect that `analyse_trigger` records for a trigger. -/
def trigger_version (trigger : Trigger) : LanguageSpec :=
  if containsRT trigger.expression then .RTLola else .Classic

/-- The position of a dialect in the totally ordered lattice Classic <
Lola2 < RTLola. -/
def LanguageSpec.rank : LanguageSpec → Nat
  | .Classic => 0
  | .Lola2 => 1
  | .RTLola => 2

/-- The expressiveness order on dialects. -/
def dialect_le (a b : LanguageSpec) : Prop := a.rank ≤ b.rank

instance (a b : LanguageSpec) : Decidable (dialect_le a b) :=
  inferInstanceAs (Decidable (a.rank ≤ b.rank))

/-- Folding `HashMap::insert` over a list of key–value pairs. -/
def insertList (m : LolaVersionTable)
    (kvs : List (NodeId × LanguageSpec)) : LolaVersionTable :=
  kvs.foldl (fun m kv => m.insert kv.1 kv.2) m

/-- The per-node entries that the first pass of the classifier records,
in insertion order: inputs, then outputs, then triggers. -/
def version_entries (spec : LolaSpec) : List (NodeId × LanguageSpec) :=
  spec.inputs.map (fun i => (i._id, input_version i)) ++
  spec.outputs.map (fun o => (o._id, output_version o)) ++
  spec.trigger.map (fun t => (t._id, trigger_version t))

/-- The node identifiers of all streams and triggers of a
specification, in first-pass order. -/
def spec_node_ids (spec : LolaSpec) : List NodeId :=
  spec.inputs.map (fun i => i._id) ++
  spec.outputs.map (fun o => o._id) ++
  spec.trigger.map (fun t => t._id)

/-- Some stream or trigger of the specification has a per-node dialect
above Classic. -/
def has_non_classic (spec : LolaSpec) : Bool :=
  spec.inputs.any (fun i => decide (input_version i ≠ .Classic)) ||
  spec.outputs.any (fun o => decide (output_version o ≠ .Classic)) ||
  spec.trigger.any (fun t => decide (trigger_version t ≠ .Classic))

/-- Some output or trigger of the specification has per-node dialect
RTLola. -/
def has_rtlola (spec : LolaSpec) : Bool :=
  spec.outputs.any (fun o => decide (output_version o = .RTLola)) ||
  spec.trigger.any (fun t => decide (trigger_version t = .RTLola))

/-- The global dialect that the reconciliation pass computes. -/
def global_version (spec : LolaSpec) : LanguageSpec :=
  if has_non_classic spec then
    (if has_rtlola spec then .RTLola else .Lola2)
  else .Classic

/-- Modelled from the spec: the grammar rules of `lola.pest` (the
grammar file and the pest engine are not under `src/`); the constructor
set is exactly the set of `Rule` variants matched by `src/parse.rs`. -/
inductive Rule where
  | Spec
  | LanguageSpec
  | ConstantStream
  | InputStream
  | OutputStream
  | Trigger
  | EOI
  | Ident
  | Type
  | ParamList
  | Literal
  | String
  | NumberLiteral
  | TupleLiteral
  | True
  | False
  | Expr
  | ParenthesizedExpression
  | OpeningParenthesis
  | ClosingParenthesis
  | DefaultExpr
  | LookupExpr
  | Duration
  | UnaryExpr
  | TernaryExpr
  | Tuple
  | FunctionExpr
  | Add
  | Subtract
  | Multiply
  | Divide
  | Mod
  | Power
  | And
  | Or
  | LessThan
  | LessThanOrEqual
  | MoreThan
  | MoreThanOrEqual
  | Equal
  | NotEqual
  | Neg
  | Sum
  | Product
  | Average
  | Count
  | Integral
deriving DecidableEq, Repr

mutual

/-- Modelled from the spec: a pest parse-tree node (`pest::iterators::
Pair` is external): a rule tag, the span and text the node matched, and
its inner pairs (`into_inner`). -/
inductive Pair where
  | mk (rule : Rule) (span : Span) (text : String) (children : PairList)

/-- A bespoke list of pairs, isomorphic to `List Pair`, keeping the
recursion of the parse tree structural. -/
inductive PairList where
  | nil
  | cons (head : Pair) (tail : PairList)

end

/-- The `as_rule` accessor of a pair. -/
def Pair.rule : Pair → Rule
  | .mk r _ _ _ => r

/-- The `as_span` accessor of a pair. -/
def Pair.span : Pair → Span
  | .mk _ s _ _ => s

/-- The `as_str` accessor of a pair. -/
def Pair.text : Pair → String
  | .mk _ _ t _ => t

/-- The `into_inner` accessor of a pair. -/
def Pair.children : Pair → PairList
  | .mk _ _ _ c => c

/-- `parse_ident` (`src/parse.rs`): assert the rule, intern the text,
return the identifier; the `assert_eq!` is rendered as an error. -/
def parse_ident (spec : LolaSpec) (pair : Pair) :
    Except String (LolaSpec × Ident) :=
  if pair.rule ≠ .Ident then
    .error "assertion failed: rule == Ident"
  else
    let name := pair.text
    let (symbol, symbols) := spec.symbols.get_symbol_for name
    .ok ({ spec with symbols := symbols }, Ident.new symbol pair.span)

mutual

/-- `parse_type` (`src/parse.rs`): a type node is a single identifier
(simple type, returned as soon as it is seen) or a sequence of nested
type nodes (tuple type); the loop over `into_inner` is the companion
`parse_type_loop`. -/
def parse_type (spec : LolaSpec) (pair : Pair) :
    Except String (LolaSpec × AstType) :=
  match pair with
  | .mk rule span _ children =>
    if rule ≠ .Type then .error "assertion failed: rule == Type"
    else parse_type_loop spec children [] span

/-- The `for pair in pair.into_inner()` loop of `parse_type`. -/
def parse_type_loop (spec : LolaSpec) (children : PairList)
    (tuple : List AstType) (span : Span) :
    Except String (LolaSpec × AstType) :=
  match children with
  | .nil => .ok (spec, AstType.new_tuple tuple span)
  | .cons p rest =>
    match p.rule with
    | .Ident =>
      let (symbol, symbols) := spec.symbols.get_symbol_for p.text
      .ok ({ spec with symbols := symbols },
        AstType.new_simple symbol p.span)
    | .Type => do
      let (spec, ty) ← parse_type spec p
      parse_type_loop spec rest (tuple ++ [ty]) span
    | _ => .error "unreachable"

end

/-- The `i128` parse of `parse_literal`: the bounds of the 128-bit
signed integer domain. -/
def i128_min : Int := -(2 ^ 127)

/-- Upper bound of the `i128` domain. -/
def i128_max : Int := 2 ^ 127 - 1

/-- Digit accumulator of the integer parser: all characters must be
decimal digits, and an empty digit sequence yields nothing. -/
def digits_to_nat? : List Char → Option Nat → Option Nat
  | [], acc => acc
  | c :: rest, acc =>
    if c.isDigit then
      digits_to_nat? rest
        (some ((acc.getD 0) * 10 + (c.toNat - '0'.toNat)))
    else none

/-- Modelled from the spec: the digit parsing of Rust's
`str::parse::<i128>` — an optional sign followed by decimal digits
(the magnitude check against the `i128` bounds is applied separately by
`parse_literal`). -/
def str_to_int? (s : String) : Option Int :=
  match s.data with
  | '-' :: rest => (digits_to_nat? rest none).map fun n => -(n : Int)
  | '+' :: rest => (digits_to_nat? rest none).map fun n => (n : Int)
  | l => (digits_to_nat? l none).map fun n => (n : Int)

mutual

/-- `parse_literal` (`src/parse.rs`): the single child of a literal
node is a string (an explicit `unimplemented!` path), a number (tried
as `i128` first, then kept as a float, whose `f64` payload is left as
raw text), a tuple literal, or a boolean. -/
def parse_literal (spec : LolaSpec) (pair : Pair) :
    Except String (LolaSpec × Literal) :=
  match pair with
  | .mk rule _ _ children =>
    if rule ≠ .Literal then .error "assertion failed: rule == Literal"
    else
      match children with
      | .nil => .error "Rule::Literal has exactly one child"
      | .cons inner _ =>
        match inner with
        | .mk irule ispan itext ichildren =>
          match irule with
          | .String => .error "not implemented: string literals"
          | .NumberLiteral =>
            (match str_to_int? itext with
            | some i =>
              if i128_min ≤ i ∧ i ≤ i128_max then
                .ok (spec, Literal.new_int i ispan)
              else .ok (spec, Literal.new_float itext ispan)
            | none => .ok (spec, Literal.new_float itext ispan))
          | .TupleLiteral => do
            let (spec, literals) ← parse_literal_list spec ichildren
            .ok (spec, Literal.new_tuple literals ispan)
          | .True => .ok (spec, Literal.new_bool true ispan)
          | .False => .ok (spec, Literal.new_bool false ispan)
          | _ => .error "unreachable"

/-- The `elements.map(parse_literal)` of the tuple-literal arm. -/
def parse_literal_list (spec : LolaSpec) (pairs : PairList) :
    Except String (LolaSpec × LitList) :=
  match pairs with
  | .nil => .ok (spec, .nil)
  | .cons p rest => do
    let (spec, l) ← parse_literal spec p
    let (spec, ls) ← parse_literal_list spec rest
    .ok (spec, .cons l ls)

end

/-- pest's associativity tag (`pest::prec_climber::Assoc`). -/
inductive Assoc where
  | Left
  | Right
deriving DecidableEq, Repr

/-- The `PREC_CLIMBER` table of `src/parse.rs`: precedence level
(lowest = 1) and associativity per binary-operator rule, one level per
`Operator::new` row. -/
def op_prec : Rule → Option (Nat × Assoc)
  | .Or => some (1, .Left)
  | .And => some (2, .Left)
  | .Equal => some (3, .Left)
  | .NotEqual => some (3, .Left)
  | .LessThan => some (4, .Left)
  | .LessThanOrEqual => some (4, .Left)
  | .MoreThan => some (4, .Left)
  | .MoreThanOrEqual => some (4, .Left)
  | .Add => some (5, .Left)
  | .Subtract => some (5, .Left)
  | .Multiply => some (6, .Left)
  | .Divide => some (6, .Left)
  | .Mod => some (6, .Left)
  | .Power => some (7, .Right)
  | _ => none

/-- The operator mapping of the reduce closure of
`build_expression_ast` (`src/parse.rs`); its `unreachable!()` arm is an
error. -/
def rule_to_binop : Rule → Option BinOp
  | .Add => some .Add
  | .Subtract => some .Sub
  | .Multiply => some .Mul
  | .Divide => some .Div
  | .Mod => some .Rem
  | .Power => some .Pow
  | .And => some .And
  | .Or => some .Or
  | .LessThan => some .Lt
  | .LessThanOrEqual => some .Le
  | .MoreThan => some .Gt
  | .MoreThanOrEqual => some .Ge
  | .Equal => some .Eq
  | .NotEqual => some .Ne
  | _ => none

/-- The reduce closure of `build_expression_ast` (`src/parse.rs`): a
binary node over the two operands, stamped with `span` — the span
argument of the enclosing `build_expression_ast` call, not the range of
the operands. -/
def binop_reduce (lhs : Expression) (op : Pair) (rhs : Expression)
    (span : Span) : Except String Expression :=
  match rule_to_binop op.rule with
  | some bop => .ok (Expression.new (.Binary bop lhs rhs) span)
  | none => .error "unreachable"

mutual

/-- `build_expression_ast` (`src/parse.rs`).  The precedence-climbing
driver `PREC_CLIMBER.climb` is pest's; it is modelled from the spec
(it builds a correctly left/right-associative binary tree over the
interleaved operand/operator sequence) by `climb_rec` and
`climb_inner`, while the primary and reduce closures are translated
from the source.  The recursion is made structural on an explicit
`fuel` argument; every theorem below instantiates `fuel` large enough
that it is never exhausted. -/
def build_expression_ast (fuel : Nat) (spec : LolaSpec)
    (pairs : PairList) (span : Span) :
    Except String (LolaSpec × Expression) :=
  match fuel with
  | 0 => .error "fuel exhausted"
  | fuel + 1 =>
    match pairs with
    | .nil => .error "expression sequence must not be empty"
    | .cons p rest => do
      let (spec, lhs) ← climb_primary fuel spec p
      let (spec, e, _) ← climb_rec fuel spec lhs 0 rest span
      .ok (spec, e)

/-- Modelled from the spec: the outer loop of pest's precedence
climbing — consume operators of precedence at least `min_prec`, build
their right operands, and reduce left-associatively. -/
def climb_rec (fuel : Nat) (spec : LolaSpec) (lhs : Expression)
    (min_prec : Nat) (pairs : PairList) (span : Span) :
    Except String (LolaSpec × Expression × PairList) :=
  match fuel with
  | 0 => .error "fuel exhausted"
  | fuel + 1 =>
    match pairs with
    | .nil => .ok (spec, lhs, .nil)
    | .cons op rest =>
      match op_prec op.rule with
      | none => .ok (spec, lhs, .cons op rest)
      | some (prec, _) =>
        if min_prec ≤ prec then
          match rest with
          | .nil => .error "expected a primary after an operator"
          | .cons p rest2 => do
            let (spec, rhs0) ← climb_primary fuel spec p
            let (spec, rhs, rest3) ←
              climb_inner fuel spec rhs0 prec rest2 span
            let lhs2 ← binop_reduce lhs op rhs span
            climb_rec fuel spec lhs2 min_prec rest3 span
        else .ok (spec, lhs, .cons op rest)

/-- Modelled from the spec: the inner loop of pest's precedence
climbing — while the next operator binds tighter (or equally for a
right-associative operator), extend the right operand. -/
def climb_inner (fuel : Nat) (spec : LolaSpec) (rhs : Expression)
    (prec : Nat) (pairs : PairList) (span : Span) :
    Except String (LolaSpec × Expression × PairList) :=
  match fuel with
  | 0 => .error "fuel exhausted"
  | fuel + 1 =>
    match pairs with
    | .nil => .ok (spec, rhs, .nil)
    | .cons op rest =>
      match op_prec op.rule with
      | none => .ok (spec, rhs, .cons op rest)
      | some (new_prec, assoc) =>
        if prec < new_prec ∨ (assoc = Assoc.Right ∧ new_prec = prec) then do
          let (spec, rhs2, rest2) ←
            climb_rec fuel spec rhs new_prec (.cons op rest) span
          climb_inner fuel spec rhs2 prec rest2 span
        else .ok (spec, rhs, .cons op rest)

/-- The primary closure of `build_expression_ast` (`src/parse.rs`):
map a single pair to an `Expression`; each arm is translated from the
corresponding `Rule` arm of the source match, with panics as errors.
The `Function` node is built with an empty type-argument list (the
source constructor takes only kind and arguments). -/
def climb_primary (fuel : Nat) (spec : LolaSpec) (pair : Pair) :
    Except String (LolaSpec × Expression) :=
  match fuel with
  | 0 => .error "fuel exhausted"
  | fuel + 1 =>
    let span := pair.span
    match pair.rule with
    | .Literal => do
      let (spec, l) ← parse_literal spec pair
      .ok (spec, Expression.new (.Lit l) span)
    | .Ident => do
      let (spec, i) ← parse_ident spec pair
      .ok (spec, Expression.new (.Ident i) span)
    | .ParenthesizedExpression =>
      match pair.children with
      | .nil => .error "ParenthesizedExpression needs an opening token"
      | .cons opp inner1 =>
        let opening_parenthesis : Option Parenthesis :=
          if opp.rule = .OpeningParenthesis then
            some (Parenthesis.new opp.span)
          else none
        match inner1 with
        | .nil => .error "ParenthesizedExpression needs an expression"
        | .cons inner_expression inner2 =>
          match inner2 with
          | .nil => .error "ParenthesizedExpression needs a closing token"
          | .cons closing _ => do
            let closing_parenthesis : Option Parenthesis :=
              if closing.rule = .ClosingParenthesis then
                some (Parenthesis.new closing.span)
              else none
            let (spec, inner_ast) ←
              build_expression_ast fuel spec inner_expression.children
                inner_expression.span
            .ok (spec,
              Expression.new
                (.ParenthesizedExpression opening_parenthesis inner_ast
                  closing_parenthesis) span)
    | .DefaultExpr =>
      match pair.children with
      | .cons lookup (.cons dflt _) => do
        let (spec, lookup_ast) ←
          parse_lookup_expression fuel spec lookup lookup.span
        let (spec, default_ast) ←
          build_expression_ast fuel spec dflt.children dflt.span
        .ok (spec,
          Expression.new (.Default lookup_ast default_ast) span)
      | _ => .error "mismatch between grammar and AST"
    | .LookupExpr => parse_lookup_expression fuel spec pair span
    | .UnaryExpr =>
      match pair.children with
      | .cons pest_operator (.cons operand _) => do
        let (spec, operand_ast) ←
          build_expression_ast fuel spec operand.children operand.span
        match pest_operator.rule with
        | .Add => .ok (spec, operand_ast)
        | .Subtract =>
          .ok (spec, Expression.new (.Unary .Neg operand_ast) span)
        | .Neg =>
          .ok (spec, Expression.new (.Unary .Not operand_ast) span)
        | _ => .error "unreachable"
      | _ => .error "unary expressions need an operator and an operand"
    | .TernaryExpr => do
      let (spec, children) ←
        parse_vec_of_expressions fuel spec pair.children
      match children with
      | .cons c1 (.cons c2 (.cons c3 .nil)) =>
        .ok (spec, Expression.new (.Ite c1 c2 c3) span)
      | _ =>
        .error "assertion failed: a ternary expression needs exactly three children"
    | .Tuple => do
      let (spec, elements) ←
        parse_vec_of_expressions fuel spec pair.children
      match elements with
      | .cons _ .nil =>
        .error "assertion failed: tuples may not have exactly one element"
      | _ => .ok (spec, Expression.new (.Tuple elements) span)
    | .Expr => build_expression_ast fuel spec pair.children pair.span
    | .FunctionExpr => build_function_expression fuel spec pair span
    | _ => .error "unexpected rule when parsing expression ast"

/-- `parse_lookup_expression` (`src/parse.rs`): a stream instance, then
either a discrete-offset expression or a duration with optional
aggregation. -/
def parse_lookup_expression (fuel : Nat) (spec : LolaSpec) (pair : Pair)
    (span : Span) : Except String (LolaSpec × Expression) :=
  match fuel with
  | 0 => .error "fuel exhausted"
  | fuel + 1 =>
    match pair.children with
    | .nil => .error "Lookups need to have a target stream instance."
    | .cons stream_instance children1 => do
      let (spec, inst) ← parse_stream_instance fuel spec stream_instance
      match children1 with
      | .nil => .error "mismatch between grammar and AST"
      | .cons second_child children2 =>
        match second_child.rule with
        | .Expr => do
          let (spec, offset_expr) ←
            build_expression_ast fuel spec second_child.children
              second_child.span
          .ok (spec,
            Expression.new
              (.Lookup inst (.DiscreteOffset offset_expr) none) span)
        | .Duration =>
          match second_child.children with
          | .nil => .error "Duration needs a time span."
          | .cons time_interval dchildren => do
            let (spec, ti) ←
              build_expression_ast fuel spec time_interval.children
                time_interval.span
            match dchildren with
            | .nil => .error "Duration needs a time unit."
            | .cons unit_pair _ => do
              let unit ←
                match unit_pair.text with
                | "ns" => .ok TimeUnit.NanoSecond
                | "μs" => .ok TimeUnit.MicroSecond
                | "ms" => .ok TimeUnit.MilliSecond
                | "s" => .ok TimeUnit.Second
                | "min" => .ok TimeUnit.Minute
                | "h" => .ok TimeUnit.Hour
                | "d" => .ok TimeUnit.Day
                | "w" => .ok TimeUnit.Week
                | "a" => .ok TimeUnit.Year
                | _ => .error "unreachable"
              let aggregation ←
                match children2 with
                | .nil => .ok (none : Option WindowOperation)
                | .cons agg _ =>
                  match agg.rule with
                  | .Sum => .ok (some WindowOperation.Sum)
                  | .Product => .ok (some WindowOperation.Product)
                  | .Average => .ok (some WindowOperation.Average)
                  | .Count => .ok (some WindowOperation.Count)
                  | .Integral => .ok (some WindowOperation.Integral)
                  | _ => .error "unreachable"
              .ok (spec,
                Expression.new
                  (.Lookup inst (.RealTimeOffset ti unit) aggregation)
                  span)
        | _ => .error "unreachable"

/-- `parse_stream_instance` (`src/parse.rs`): the stream identifier,
then the argument expressions. -/
def parse_stream_instance (fuel : Nat) (spec : LolaSpec) (pair : Pair) :
    Except String (LolaSpec × StreamInstance) :=
  match fuel with
  | 0 => .error "fuel exhausted"
  | fuel + 1 =>
    match pair.children with
    | .nil => .error "mismatch between grammar and AST"
    | .cons ident_pair rest => do
      let (spec, stream_ident) ← parse_ident spec ident_pair
      let (spec, args) ← parse_vec_of_expressions fuel spec rest
      .ok (spec, StreamInstance.mk stream_ident args)

/-- `parse_vec_of_expressions` (`src/parse.rs`): build each pair's
inner sequence with the pair's own span. -/
def parse_vec_of_expressions (fuel : Nat) (spec : LolaSpec)
    (pairs : PairList) : Except String (LolaSpec × ExprList) :=
  match fuel with
  | 0 => .error "fuel exhausted"
  | fuel + 1 =>
    match pairs with
    | .nil => .ok (spec, .nil)
    | .cons p rest => do
      let (spec, e) ← build_expression_ast fuel spec p.children p.span
      let (spec, es) ← parse_vec_of_expressions fuel spec rest
      .ok (spec, .cons e es)

/-- `build_function_expression` (`src/parse.rs`): resolve the name
against the closed function table (note the source's `"arctar"` key for
`Arctan`), an unknown name being a fatal error, then parse the
arguments. -/
def build_function_expression (fuel : Nat) (spec : LolaSpec)
    (pair : Pair) (span : Span) : Except String (LolaSpec × Expression) :=
  match fuel with
  | 0 => .error "fuel exhausted"
  | fuel + 1 =>
    match pair.children with
    | .nil => .error "mismatch between grammar and AST"
    | .cons name_pair rest => do
      let function_kind ←
        match name_pair.text with
        | "nroot" => .ok FunctionKind.NthRoot
        | "sqrt" => .ok FunctionKind.Sqrt
        | "π" => .ok FunctionKind.Projection
        | "sin" => .ok FunctionKind.Sin
        | "cos" => .ok FunctionKind.Cos
        | "tan" => .ok FunctionKind.Tan
        | "arcsin" => .ok FunctionKind.Arcsin
        | "arccos" => .ok FunctionKind.Arccos
        | "arctar" => .ok FunctionKind.Arctan
        | "exp" => .ok FunctionKind.Exp
        | "floor" => .ok FunctionKind.Floor
        | "ceil" => .ok FunctionKind.Ceil
        | _ => .error "Unknown function symbol."
      let (spec, args) ← parse_vec_of_expressions fuel spec rest
      .ok (spec, Expression.new (.Function function_kind [] args) span)

end

/-- The `while let` loop of `parse_inputs` (`src/parse.rs`): consume
(identifier, type) pairs until the child sequence is exhausted; an odd
trailing child is the source's `expect` panic.  The produced `Input`
carries the default node id and empty parameter list, both assigned
outside the builder. -/
def parse_inputs_loop (spec : LolaSpec) (pairs : PairList)
    (inputs : List Input) : Except String (LolaSpec × List Input) :=
  match pairs with
  | .nil => .ok (spec, inputs)
  | .cons pair rest => do
    let start := pair.span.start
    let (spec, name) ← parse_ident spec pair
    match rest with
    | .nil => .error "mismatch between grammar and AST"
    | .cons ty_pair rest2 => do
      let stop := ty_pair.span.stop
      let (spec, ty) ← parse_type spec ty_pair
      parse_inputs_loop spec rest2
        (inputs ++
          [{ _id := 0, name := name, params := [], ty := ty,
             span := ⟨start, stop⟩ }])

/-- `parse_inputs` (`src/parse.rs`): the loop above plus the trailing
`assert!(!inputs.is_empty())`. -/
def parse_inputs (spec : LolaSpec) (pair : Pair) :
    Except String (LolaSpec × List Input) :=
  if pair.rule ≠ .InputStream then
    .error "assertion failed: rule == InputStream"
  else do
    let (spec, inputs) ← parse_inputs_loop spec pair.children []
    if inputs.isEmpty then
      .error "assertion failed: inputs must not be empty"
    else .ok (spec, inputs)

/-- `parse_constant` (`src/parse.rs`): identifier, type, literal. -/
def parse_constant (spec : LolaSpec) (pair : Pair) :
    Except String (LolaSpec × Constant) :=
  if pair.rule ≠ .ConstantStream then
    .error "assertion failed: rule == ConstantStream"
  else
    match pair.children with
    | .cons p1 (.cons p2 (.cons p3 _)) => do
      let (spec, name) ← parse_ident spec p1
      let (spec, ty) ← parse_type spec p2
      let (spec, literal) ← parse_literal spec p3
      .ok (spec, ⟨some name, some ty, some literal, pair.span⟩)
    | _ => .error "mismatch between grammar and AST"

/-- `parse_output` (`src/parse.rs`): identifier, type, expression;
node id and parameter list are left to external passes. -/
def parse_output (fuel : Nat) (spec : LolaSpec) (pair : Pair) :
    Except String (LolaSpec × Output) :=
  if pair.rule ≠ .OutputStream then
    .error "assertion failed: rule == OutputStream"
  else
    match pair.children with
    | .cons p1 (.cons p2 (.cons p3 _)) => do
      let (spec, name) ← parse_ident spec p1
      let (spec, ty) ← parse_type spec p2
      let (spec, expression) ←
        build_expression_ast fuel spec p3.children p3.span
      .ok (spec,
        { _id := 0, name := name, params := [], ty := ty,
          expression := expression, span := pair.span })
    | _ => .error "mismatch between grammar and AST"

/-- The optional trailing message of `parse_trigger`
(`src/parse.rs`). -/
def parse_trigger_message (spec : LolaSpec) (name : Option Ident)
    (expression : Expression) (rest : PairList) (span : Span) :
    Except String (LolaSpec × Trigger) :=
  match rest with
  | .nil =>
    .ok (spec,
      { _id := 0, name := name, expression := expression,
        message := none, span := span })
  | .cons p _ =>
    if p.rule ≠ .String then .error "assertion failed: rule == String"
    else
      let (sym, symbols) := spec.symbols.get_symbol_for p.text
      .ok ({ spec with symbols := symbols },
        { _id := 0, name := name, expression := expression,
          message := some sym, span := span })

/-- `parse_trigger` (`src/parse.rs`): optional identifier, expression,
optional message string. -/
def parse_trigger (fuel : Nat) (spec : LolaSpec) (pair : Pair) :
    Except String (LolaSpec × Trigger) :=
  if pair.rule ≠ .Trigger then .error "assertion failed: rule == Trigger"
  else
    match pair.children with
    | .nil => .error "mistmatch between grammar and AST"
    | .cons p0 rest0 =>
      match p0.rule with
      | .Ident => do
        let (spec, name) ← parse_ident spec p0
        match rest0 with
        | .nil => .error "mismatch between grammar and AST"
        | .cons p1 rest1 => do
          let (spec, expression) ←
            build_expression_ast fuel spec p1.children p1.span
          parse_trigger_message spec (some name) expression rest1
            pair.span
      | _ => do
        let (spec, expression) ←
          build_expression_ast fuel spec p0.children p0.span
        parse_trigger_message spec none expression rest0 pair.span

/-- Modelled from the spec: `LanguageSpec::from(&str)` lives in the
missing `ast.rs`; the three dialect names map to their variants and
anything else defaults to `Classic`.  No claim depends on this
mapping. -/
def LanguageSpec.from_str (s : String) : LanguageSpec :=
  if s = "Lola2" then .Lola2
  else if s = "RTLola" then .RTLola
  else .Classic

/-- The dispatch loop of `parse` (`src/parse.rs`) over the direct
children of the `Spec` pair: constants, inputs and outputs are built
and accumulated; a `Trigger` child hits the source's
`unimplemented!()`; an unexpected rule hits `unreachable!()`. -/
def parse_loop (fuel : Nat) (spec : LolaSpec) (pairs : PairList) :
    Except String LolaSpec :=
  match pairs with
  | .nil => .ok spec
  | .cons pair rest =>
    match pair.rule with
    | .LanguageSpec =>
      parse_loop fuel
        { spec with language := some (LanguageSpec.from_str pair.text) }
        rest
    | .ConstantStream => do
      let (spec, constant) ← parse_constant spec pair
      parse_loop fuel
        { spec with constants := spec.constants ++ [constant] } rest
    | .InputStream => do
      let (spec, input) ← parse_inputs spec pair
      parse_loop fuel { spec with inputs := spec.inputs ++ input } rest
    | .OutputStream => do
      let (spec, output) ← parse_output fuel spec pair
      parse_loop fuel { spec with outputs := spec.outputs ++ [output] }
        rest
    | .Trigger => .error "not implemented: Rule::Trigger in parse"
    | .EOI => parse_loop fuel spec rest
    | _ => .error "unreachable"

/-- `parse` (`src/parse.rs`).  The pest front half
(`LolaParser::parse`) is external; this function receives the `Spec`
pair it produces and performs the source's dispatch over its
children. -/
def parse (fuel : Nat) (spec_pair : Pair) : Except String LolaSpec :=
  if spec_pair.rule ≠ .Spec then .error "assertion failed: rule == Spec"
  else parse_loop fuel LolaSpec.new spec_pair.children

/-- Well-formedness of a symbol table: every recorded symbol indexes
the canonical string it was interned from.  `SymbolTable::new` is
well-formed and `get_symbol_for` preserves well-formedness within the
`u32` capacity. -/
def SymbolTable.WF (t : SymbolTable) : Prop :=
  ∀ p ∈ t.names,
    p.2.val < t.strings.length ∧ t.strings.get? p.2.val = some p.1

/-- Fixture: the real-time lookup `stream[3s]` as built for
`output test: Int8 := stream[3s]` (byte offsets of that source
line). -/
def ex_rt_lookup : Expression :=
  Expression.new
    (.Lookup (StreamInstance.mk (Ident.new ⟨0⟩ ⟨21, 27⟩) .nil)
      (.RealTimeOffset
        (Expression.new (.Lit (Literal.new_int 3 ⟨28, 29⟩)) ⟨28, 29⟩)
        .Second)
      none)
    ⟨21, 31⟩

/-- Fixture: the output `output test: Int8 := stream[3s]` with node id
0 assigned. -/
def ex_rt_output : Output :=
  { _id := 0, name := Ident.new ⟨1⟩ ⟨7, 11⟩, params := [],
    ty := AstType.new_simple ⟨2⟩ ⟨13, 17⟩, expression := ex_rt_lookup,
    span := ⟨0, 31⟩ }

/-- Fixture: a one-output specification whose only expression is a
real-time lookup. -/
def ex_rt_spec : LolaSpec :=
  { language := none, constants := [], inputs := [],
    outputs := [ex_rt_output], trigger := [],
    symbols :=
      ⟨[("stream", ⟨0⟩), ("test", ⟨1⟩), ("Int8", ⟨2⟩)],
        ["stream", "test", "Int8"]⟩ }

/-- Fixture: a discrete lookup `s(stream[3s])[0]` whose only real-time
offset sits inside the argument expression of the stream instance. -/
def cex_expr : Expression :=
  Expression.new
    (.Lookup (StreamInstance.mk (Ident.new ⟨3⟩ ⟨0, 1⟩)
        (.cons ex_rt_lookup .nil))
      (.DiscreteOffset
        (Expression.new (.Lit (Literal.new_int 0 ⟨13, 14⟩)) ⟨13, 14⟩))
      none)
    ⟨0, 15⟩

/-- Fixture: an output whose expression hides a real-time offset inside
a stream-instance argument. -/
def cex_output : Output :=
  { _id := 0, name := Ident.new ⟨1⟩ ⟨0, 1⟩, params := [],
    ty := AstType.new_simple ⟨2⟩ ⟨2, 3⟩, expression := cex_expr,
    span := ⟨0, 15⟩ }

/-- Fixture: a one-output specification around `cex_output`. -/
def cex_spec : LolaSpec :=
  { language := none, constants := [], inputs := [],
    outputs := [cex_output], trigger := [],
    symbols :=
      ⟨[("stream", ⟨0⟩), ("test", ⟨1⟩), ("Int8", ⟨2⟩), ("s", ⟨3⟩)],
        ["stream", "test", "Int8", "s"]⟩ }

/-- Fixture: the parse tree of the trigger clause of
`trigger test := false` (rule, span, matched text, children). -/
def c3_trigger_pair : Pair :=
  .mk .Trigger ⟨0, 21⟩ "trigger test := false"
    (.cons (.mk .Ident ⟨8, 12⟩ "test" .nil)
      (.cons
        (.mk .Expr ⟨16, 21⟩ "false"
          (.cons
            (.mk .Literal ⟨16, 21⟩ "false"
              (.cons (.mk .False ⟨16, 21⟩ "false" .nil) .nil))
            .nil))
        .nil))

/-- Fixture: the `Spec` parse tree of `trigger test := false`. -/
def c3_spec_pair : Pair :=
  .mk .Spec ⟨0, 21⟩ "trigger test := false"
    (.cons c3_trigger_pair (.cons (.mk .EOI ⟨21, 21⟩ "" .nil) .nil))

/-- Fixture: the trigger AST that `parse_trigger` builds for
`trigger test := false`, with node id 0 assigned. -/
def c3_trigger : Trigger :=
  { _id := 0, name := some (Ident.new ⟨0⟩ ⟨8, 12⟩),
    expression :=
      Expression.new (.Lit (Literal.new_bool false ⟨16, 21⟩)) ⟨16, 21⟩,
    message := none, span := ⟨0, 21⟩ }

/-- Fixture: the one-trigger specification for
`trigger test := false`. -/
def c3_spec : LolaSpec :=
  { language := none, constants := [], inputs := [], outputs := [],
    trigger := [c3_trigger],
    symbols := ⟨[("test", ⟨0⟩)], ["test"]⟩ }

/-- Fixture: a literal operand pair of the expression sequence. -/
def lit_pair (txt : String) (s : Span) : Pair :=
  .mk .Literal s txt (.cons (.mk .NumberLiteral s txt .nil) .nil)

/-- Fixture: an identifier operand pair of the expression sequence. -/
def ident_pair (txt : String) (s : Span) : Pair :=
  .mk .Ident s txt .nil

/-- Fixture: a binary-operator pair of the expression sequence. -/
def op_pair (r : Rule) (s : Span) : Pair := .mk r s "" .nil

/-- Fixture: the interleaved operand/operator sequence of
`1 || 2 && 3` with its byte offsets. -/
def c5_tokens : PairList :=
  .cons (lit_pair "1" ⟨0, 1⟩)
    (.cons (op_pair .Or ⟨2, 4⟩)
      (.cons (lit_pair "2" ⟨5, 6⟩)
        (.cons (op_pair .And ⟨7, 9⟩)
          (.cons (lit_pair "3" ⟨10, 11⟩) .nil))))

/-- Fixture: the interleaved operand/operator sequence of
`a || b && c` with its byte offsets. -/
def c6_tokens : PairList :=
  .cons (ident_pair "a" ⟨0, 1⟩)
    (.cons (op_pair .Or ⟨2, 4⟩)
      (.cons (ident_pair "b" ⟨5, 6⟩)
        (.cons (op_pair .And ⟨7, 9⟩)
          (.cons (ident_pair "c" ⟨10, 11⟩) .nil))))

/-- Interleave (identifier, type) pairs into the flat child sequence of
an input clause. -/
def interleave_pairs : List (Pair × Pair) → PairList
  | [] => .nil
  | (a, b) :: rest => .cons a (.cons b (interleave_pairs rest))

/-- Fixture: a simple named type pair. -/
def type_pair (txt : String) (s : Span) : Pair :=
  .mk .Type s txt (.cons (.mk .Ident s txt .nil) .nil)

/-- Fixture: the (identifier, type) pairs of
`input a: Int, b: Int, c: Bool`. -/
def c9_pairs : List (Pair × Pair) :=
  [(ident_pair "a" ⟨6, 7⟩, type_pair "Int" ⟨9, 12⟩),
   (ident_pair "b" ⟨14, 15⟩, type_pair "Int" ⟨17, 20⟩),
   (ident_pair "c" ⟨22, 23⟩, type_pair "Bool" ⟨25, 29⟩)]

/-- Fixture: the input clause pair of `input a: Int, b: Int, c: Bool`. -/
def c9_input_pair : Pair :=
  .mk .InputStream ⟨0, 29⟩ "input a: Int, b: Int, c: Bool"
    (interleave_pairs c9_pairs)

/-- Fixture: an input clause with no children, for the non-emptiness
assertion. -/
def c9_empty_pair : Pair := .mk .InputStream ⟨0, 5⟩ "input" .nil

/-- Fixture: the identifier leaf `a` of `a || b && c`. -/
def c6_a : Expression :=
  Expression.new (.Ident (Ident.new ⟨0⟩ ⟨0, 1⟩)) ⟨0, 1⟩

/-- Fixture: the identifier leaf `b` of `a || b && c`. -/
def c6_b : Expression :=
  Expression.new (.Ident (Ident.new ⟨1⟩ ⟨5, 6⟩)) ⟨5, 6⟩

/-- Fixture: the identifier leaf `c` of `a || b && c`. -/
def c6_c : Expression :=
  Expression.new (.Ident (Ident.new ⟨2⟩ ⟨10, 11⟩)) ⟨10, 11⟩

/-- Fixture: the tree `Or(a, And(b, c))` that correct precedence
requires for `a || b && c`. -/
def c6_or_result : Expression :=
  Expression.new
    (.Binary .Or c6_a
      (Expression.new (.Binary .And c6_b c6_c) ⟨0, 11⟩))
    ⟨0, 11⟩

/-- Fixture: the wrong tree `And(Or(a, b), c)` that broken precedence
would produce for `a || b && c`. -/
def c6_and_result : Expression :=
  Expression.new
    (.Binary .And
      (Expression.new (.Binary .Or c6_a c6_b) ⟨0, 11⟩) c6_c)
    ⟨0, 11⟩

/-- Fixture: an unparameterized input `input test : Int8` with node id
0 assigned. -/
def ex_input : Input :=
  { _id := 0, name := Ident.new ⟨0⟩ ⟨6, 10⟩, params := [],
    ty := AstType.new_simple ⟨1⟩ ⟨13, 17⟩, span := ⟨6, 17⟩ }

/-- Fixture: a one-input specification around `ex_input`. -/
def ex_input_spec : LolaSpec :=
  { language := none, constants := [], inputs := [ex_input],
    outputs := [], trigger := [],
    symbols := ⟨[("test", ⟨0⟩), ("Int8", ⟨1⟩)], ["test", "Int8"]⟩ }

mutual

/-- The expression walk never clears a disqualification that is already
recorded in the tracker. -/
theorem analyse_expression_mono (vt : VersionTracker) (e : Expression)
    (b : Bool) :
    (vt.cannot_be_classic.isSome = true →
      (analyse_expression vt e b).cannot_be_classic.isSome = true) ∧
    (vt.cannot_be_lola2.isSome = true →
      (analyse_expression vt e b).cannot_be_lola2.isSome = true) := by
  cases e with
  | mk kind span =>
    cases kind with
    | Lit l => simp [analyse_expression]
    | Ident i => simp [analyse_expression]
    | Default t d =>
      have h1 := analyse_expression_mono vt t false
      have h2 :=
        analyse_expression_mono (analyse_expression vt t false) d false
      simp only [analyse_expression]
      exact ⟨fun h => h2.1 (h1.1 h), fun h => h2.2 (h1.2 h)⟩
    | Lookup inst offset agg =>
      cases offset with
      | DiscreteOffset oexpr =>
        have h1 := analyse_expression_mono vt oexpr false
        simp only [analyse_expression]
        exact h1
      | RealTimeOffset oexpr unit =>
        simp [analyse_expression]
    | Binary op l r =>
      have h1 := analyse_expression_mono vt l false
      have h2 :=
        analyse_expression_mono (analyse_expression vt l false) r false
      simp only [analyse_expression]
      exact ⟨fun h => h2.1 (h1.1 h), fun h => h2.2 (h1.2 h)⟩
    | Unary op n =>
      have h1 := analyse_expression_mono vt n false
      simp only [analyse_expression]
      exact h1
    | Ite c t e2 =>
      have h1 := analyse_expression_mono vt c false
      have h2 :=
        analyse_expression_mono (analyse_expression vt c false) t false
      have h3 :=
        analyse_expression_mono
          (analyse_expression (analyse_expression vt c false) t false) e2
          false
      simp only [analyse_expression]
      exact ⟨fun h => h3.1 (h2.1 (h1.1 h)), fun h => h3.2 (h2.2 (h1.2 h))⟩
    | ParenthesizedExpression o n c =>
      have h1 := analyse_expression_mono vt n false
      simp only [analyse_expression]
      exact h1
    | MissingExpression => simp [analyse_expression]
    | Tuple es =>
      have h1 := analyse_expression_list_mono vt es
      simp only [analyse_expression]
      exact h1
    | Function k targs args =>
      have h1 := analyse_expression_list_mono vt args
      simp only [analyse_expression]
      exact h1
    | Field e2 f =>
      have h1 := analyse_expression_mono vt e2 false
      simp only [analyse_expression]
      exact h1
    | Method e2 n targs args =>
      have h1 := analyse_expression_mono vt e2 false
      have h2 :=
        analyse_expression_list_mono (analyse_expression vt e2 false) args
      simp only [analyse_expression]
      exact ⟨fun h => h2.1 (h1.1 h), fun h => h2.2 (h1.2 h)⟩

/-- List companion of `analyse_expression_mono`. -/
theorem analyse_expression_list_mono (vt : VersionTracker)
    (es : ExprList) :
    (vt.cannot_be_classic.isSome = true →
      (analyse_expression_list vt es).cannot_be_classic.isSome = true) ∧
    (vt.cannot_be_lola2.isSome = true →
      (analyse_expression_list vt es).cannot_be_lola2.isSome = true) := by
  cases es with
  | nil => simp [analyse_expression_list]
  | cons e tl =>
    have h1 := analyse_expression_mono vt e false
    have h2 :=
      analyse_expression_list_mono (analyse_expression vt e false) tl
    simp only [analyse_expression_list]
    exact ⟨fun h => h2.1 (h1.1 h), fun h => h2.2 (h1.2 h)⟩

end

mutual

/-- On an expression with no walk-reachable real-time offset the walk
leaves the tracker untouched. -/
theorem analyse_expression_no_rt (vt : VersionTracker) (e : Expression)
    (b : Bool) (h : containsRT e = false) :
    analyse_expression vt e b = vt := by
  cases e with
  | mk kind span =>
    cases kind with
    | Lit l => simp [analyse_expression]
    | Ident i => simp [analyse_expression]
    | Default t d =>
      simp only [containsRT, Bool.or_eq_false_iff] at h
      simp only [analyse_expression]
      rw [analyse_expression_no_rt vt t false h.1,
        analyse_expression_no_rt vt d false h.2]
    | Lookup inst offset agg =>
      cases offset with
      | DiscreteOffset oexpr =>
        simp only [containsRT] at h
        simp only [analyse_expression]
        exact analyse_expression_no_rt vt oexpr false h
      | RealTimeOffset oexpr unit =>
        simp [containsRT] at h
    | Binary op l r =>
      simp only [containsRT, Bool.or_eq_false_iff] at h
      simp only [analyse_expression]
      rw [analyse_expression_no_rt vt l false h.1,
        analyse_expression_no_rt vt r false h.2]
    | Unary op n =>
      simp only [containsRT] at h
      simp only [analyse_expression]
      exact analyse_expression_no_rt vt n false h
    | Ite c t e2 =>
      simp only [containsRT, Bool.or_eq_false_iff] at h
      simp only [analyse_expression]
      rw [analyse_expression_no_rt vt c false h.1.1,
        analyse_expression_no_rt vt t false h.1.2,
        analyse_expression_no_rt vt e2 false h.2]
    | ParenthesizedExpression o n c =>
      simp only [containsRT] at h
      simp only [analyse_expression]
      exact analyse_expression_no_rt vt n false h
    | MissingExpression => simp [analyse_expression]
    | Tuple es =>
      simp only [containsRT] at h
      simp only [analyse_expression]
      exact analyse_expression_list_no_rt vt es h
    | Function k targs args =>
      simp only [containsRT] at h
      simp only [analyse_expression]
      exact analyse_expression_list_no_rt vt args h
    | Field e2 f =>
      simp only [containsRT] at h
      simp only [analyse_expression]
      exact analyse_expression_no_rt vt e2 false h
    | Method e2 n targs args =>
      simp only [containsRT, Bool.or_eq_false_iff] at h
      simp only [analyse_expression]
      rw [analyse_expression_no_rt vt e2 false h.1]
      exact analyse_expression_list_no_rt vt args h.2

/-- List companion of `analyse_expression_no_rt`. -/
theorem analyse_expression_list_no_rt (vt : VersionTracker)
    (es : ExprList) (h : containsRTList es = false) :
    analyse_expression_list vt es = vt := by
  cases es with
  | nil => simp [analyse_expression_list]
  | cons e tl =>
    simp only [containsRTList, Bool.or_eq_false_iff] at h
    simp only [analyse_expression_list]
    rw [analyse_expression_no_rt vt e false h.1]
    exact analyse_expression_list_no_rt vt tl h.2

end

mutual

/-- An expression containing a walk-reachable real-time offset leaves
the walk with both disqualifications recorded. -/
theorem analyse_expression_rt (vt : VersionTracker) (e : Expression)
    (b : Bool) (h : containsRT e = true) :
    (analyse_expression vt e b).cannot_be_classic.isSome = true ∧
    (analyse_expression vt e b).cannot_be_lola2.isSome = true := by
  cases e with
  | mk kind span =>
    cases kind with
    | Lit l => simp [containsRT] at h
    | Ident i => simp [containsRT] at h
    | Default t d =>
      simp only [containsRT, Bool.or_eq_true] at h
      simp only [analyse_expression]
      rcases h with h | h
      · have h1 := analyse_expression_rt vt t false h
        have h2 :=
          analyse_expression_mono (analyse_expression vt t false) d false
        exact ⟨h2.1 h1.1, h2.2 h1.2⟩
      · exact analyse_expression_rt (analyse_expression vt t false) d false h
    | Lookup inst offset agg =>
      cases offset with
      | DiscreteOffset oexpr =>
        simp only [containsRT] at h
        simp only [analyse_expression]
        exact analyse_expression_rt vt oexpr false h
      | RealTimeOffset oexpr unit =>
        simp [analyse_expression]
    | Binary op l r =>
      simp only [containsRT, Bool.or_eq_true] at h
      simp only [analyse_expression]
      rcases h with h | h
      · have h1 := analyse_expression_rt vt l false h
        have h2 :=
          analyse_expression_mono (analyse_expression vt l false) r false
        exact ⟨h2.1 h1.1, h2.2 h1.2⟩
      · exact analyse_expression_rt (analyse_expression vt l false) r false h
    | Unary op n =>
      simp only [containsRT] at h
      simp only [analyse_expression]
      exact analyse_expression_rt vt n false h
    | Ite c t e2 =>
      simp only [containsRT, Bool.or_eq_true] at h
      simp only [analyse_expression]
      rcases h with (h | h) | h
      · have h1 := analyse_expression_rt vt c false h
        have h2 :=
          analyse_expression_mono (analyse_expression vt c false) t false
        have h3 :=
          analyse_expression_mono
            (analyse_expression (analyse_expression vt c false) t false)
            e2 false
        exact ⟨h3.1 (h2.1 h1.1), h3.2 (h2.2 h1.2)⟩
      · have h1 :=
          analyse_expression_rt (analyse_expression vt c false) t false h
        have h3 :=
          analyse_expression_mono
            (analyse_expression (analyse_expression vt c false) t false)
            e2 false
        exact ⟨h3.1 h1.1, h3.2 h1.2⟩
      · exact
          analyse_expression_rt
            (analyse_expression (analyse_expression vt c false) t false)
            e2 false h
    | ParenthesizedExpression o n c =>
      simp only [containsRT] at h
      simp only [analyse_expression]
      exact analyse_expression_rt vt n false h
    | MissingExpression => simp [containsRT] at h
    | Tuple es =>
      simp only [containsRT] at h
      simp only [analyse_expression]
      exact analyse_expression_list_rt vt es h
    | Function k targs args =>
      simp only [containsRT] at h
      simp only [analyse_expression]
      exact analyse_expression_list_rt vt args h
    | Field e2 f =>
      simp only [containsRT] at h
      simp only [analyse_expression]
      exact analyse_expression_rt vt e2 false h
    | Method e2 n targs args =>
      simp only [containsRT, Bool.or_eq_true] at h
      simp only [analyse_expression]
      rcases h with h | h
      · have h1 := analyse_expression_rt vt e2 false h
        have h2 :=
          analyse_expression_list_mono (analyse_expression vt e2 false)
            args
        exact ⟨h2.1 h1.1, h2.2 h1.2⟩
      · exact
          analyse_expression_list_rt (analyse_expression vt e2 false) args h

/-- List companion of `analyse_expression_rt`. -/
theorem analyse_expression_list_rt (vt : VersionTracker) (es : ExprList)
    (h : containsRTList es = true) :
    (analyse_expression_list vt es).cannot_be_classic.isSome = true ∧
    (analyse_expression_list vt es).cannot_be_lola2.isSome = true := by
  cases es with
  | nil => simp [containsRTList] at h
  | cons e tl =>
    simp only [containsRTList, Bool.or_eq_true] at h
    simp only [analyse_expression_list]
    rcases h with h | h
    · have h1 := analyse_expression_rt vt e false h
      have h2 :=
        analyse_expression_list_mono (analyse_expression vt e false) tl
      exact ⟨h2.1 h1.1, h2.2 h1.2⟩
    · exact analyse_expression_list_rt (analyse_expression vt e false) tl h

end

theorem analyse_input_eq (self : LolaVersionAnalysis) (input : Input) :
    self.analyse_input input =
      ⟨self.result.insert input._id (input_version input)⟩ := by
  unfold LolaVersionAnalysis.analyse_input input_version
  by_cases h : input.params.isEmpty <;> simp [h]

theorem analyse_output_eq (self : LolaVersionAnalysis) (output : Output) :
    self.analyse_output output =
      ⟨self.result.insert output._id (output_version output)⟩ := by
  unfold LolaVersionAnalysis.analyse_output output_version
  cases hrt : containsRT output.expression with
  | false =>
    have hnr : ∀ vt, analyse_expression vt output.expression false = vt :=
      fun vt => analyse_expression_no_rt vt output.expression false hrt
    by_cases hp : output.params.isEmpty <;>
      simp [hp, hnr, VersionTracker.from_stream]
  | true =>
    have h :=
      analyse_expression_rt
        (VersionTracker.from_stream
          (if output.params.isEmpty then none
           else some (output.name.span, "Parameterized stream")))
        output.expression false hrt
    rcases Option.isSome_iff_exists.mp h.1 with ⟨w1, hw1⟩
    rcases Option.isSome_iff_exists.mp h.2 with ⟨w2, hw2⟩
    simp [hw1, hw2]

theorem analyse_trigger_eq (self : LolaVersionAnalysis)
    (trigger : Trigger) :
    self.analyse_trigger trigger =
      ⟨self.result.insert trigger._id (trigger_version trigger)⟩ := by
  unfold LolaVersionAnalysis.analyse_trigger trigger_version
  cases hrt : containsRT trigger.expression with
  | false =>
    have hnr : ∀ vt, analyse_expression vt trigger.expression true = vt :=
      fun vt => analyse_expression_no_rt vt trigger.expression true hrt
    simp [hnr, VersionTracker.new]
  | true =>
    have h :=
      analyse_expression_rt VersionTracker.new trigger.expression true hrt
    rcases Option.isSome_iff_exists.mp h.1 with ⟨w1, hw1⟩
    rcases Option.isSome_iff_exists.mp h.2 with ⟨w2, hw2⟩
    simp [hw1, hw2]

theorem version_entries_keys (spec : LolaSpec) :
    (version_entries spec).map Prod.fst = spec_node_ids spec := by
  simp only [version_entries, spec_node_ids, List.map_append,
    List.map_map]
  rfl

theorem insertList_append (m : LolaVersionTable)
    (a b : List (NodeId × LanguageSpec)) :
    insertList m (a ++ b) = insertList (insertList m a) b := by
  simp [insertList, List.foldl_append]

theorem foldl_analyse_input (self : LolaVersionAnalysis)
    (l : List Input) :
    (l.foldl (fun s input => s.analyse_input input) self).result =
      insertList self.result (l.map fun i => (i._id, input_version i)) := by
  induction l generalizing self with
  | nil => simp [insertList]
  | cons x xs ih =>
    simp only [List.foldl_cons, List.map_cons]
    rw [analyse_input_eq self x]
    exact ih ⟨self.result.insert x._id (input_version x)⟩

theorem foldl_analyse_output (self : LolaVersionAnalysis)
    (l : List Output) :
    (l.foldl (fun s output => s.analyse_output output) self).result =
      insertList self.result (l.map fun o => (o._id, output_version o)) := by
  induction l generalizing self with
  | nil => simp [insertList]
  | cons x xs ih =>
    simp only [List.foldl_cons, List.map_cons]
    rw [analyse_output_eq self x]
    exact ih ⟨self.result.insert x._id (output_version x)⟩

theorem foldl_analyse_trigger (self : LolaVersionAnalysis)
    (l : List Trigger) :
    (l.foldl (fun s trigger => s.analyse_trigger trigger) self).result =
      insertList self.result
        (l.map fun t => (t._id, trigger_version t)) := by
  induction l generalizing self with
  | nil => simp [insertList]
  | cons x xs ih =>
    simp only [List.foldl_cons, List.map_cons]
    rw [analyse_trigger_eq self x]
    exact ih ⟨self.result.insert x._id (trigger_version x)⟩

theorem first_pass_result (self : LolaVersionAnalysis)
    (spec : LolaSpec) :
    (self.first_pass spec).result =
      insertList self.result (version_entries spec) := by
  unfold LolaVersionAnalysis.first_pass version_entries
  rw [insertList_append, insertList_append,
    ← foldl_analyse_input self spec.inputs]
  rw [← foldl_analyse_output
    (spec.inputs.foldl (fun s input => s.analyse_input input) self)
    spec.outputs]
  rw [← foldl_analyse_trigger _ spec.trigger]

theorem insertList_lookup_not_mem (m : LolaVersionTable)
    (kvs : List (NodeId × LanguageSpec)) (k : NodeId)
    (h : k ∉ kvs.map Prod.fst) : insertList m kvs k = m k := by
  induction kvs generalizing m with
  | nil => simp [insertList]
  | cons x xs ih =>
    simp only [List.map_cons, List.mem_cons, not_or] at h
    simp only [insertList, List.foldl_cons]
    rw [show (List.foldl (fun m kv => m.insert kv.1 kv.2)
        (m.insert x.1 x.2) xs) = insertList (m.insert x.1 x.2) xs from rfl]
    rw [ih _ h.2]
    simp [LolaVersionTable.insert, h.1]

theorem insertList_lookup_mem_nodup (m : LolaVersionTable)
    (kvs : List (NodeId × LanguageSpec)) (k : NodeId) (v : LanguageSpec)
    (hnd : (kvs.map Prod.fst).Nodup) (hmem : (k, v) ∈ kvs) :
    insertList m kvs k = some v := by
  induction kvs generalizing m with
  | nil => simp at hmem
  | cons x xs ih =>
    simp only [List.map_cons, List.nodup_cons] at hnd
    simp only [insertList, List.foldl_cons]
    rw [show (List.foldl (fun m kv => m.insert kv.1 kv.2)
        (m.insert x.1 x.2) xs) = insertList (m.insert x.1 x.2) xs from rfl]
    rcases List.mem_cons.mp hmem with heq | hmem2
    · subst heq
      rw [insertList_lookup_not_mem _ _ _ hnd.1]
      simp [LolaVersionTable.insert]
    · exact ih (m.insert x.1 x.2) hnd.2 hmem2

theorem insertList_isSome_of_mem (m : LolaVersionTable)
    (kvs : List (NodeId × LanguageSpec)) (k : NodeId)
    (h : k ∈ kvs.map Prod.fst) : (insertList m kvs k).isSome = true := by
  induction kvs generalizing m with
  | nil => simp at h
  | cons x xs ih =>
    simp only [insertList, List.foldl_cons]
    rw [show (List.foldl (fun m kv => m.insert kv.1 kv.2)
        (m.insert x.1 x.2) xs) = insertList (m.insert x.1 x.2) xs from rfl]
    by_cases hx : k ∈ xs.map Prod.fst
    · exact ih (m.insert x.1 x.2) hx
    · simp only [List.map_cons, List.mem_cons] at h
      rcases h with heq | hmem
      · rw [insertList_lookup_not_mem _ _ _ hx]
        simp [LolaVersionTable.insert, heq]
      · exact absurd hmem hx

theorem insertList_lookup_inv (m : LolaVersionTable)
    (kvs : List (NodeId × LanguageSpec)) (k : NodeId) (v : LanguageSpec)
    (h : insertList m kvs k = some v) : (k, v) ∈ kvs ∨ m k = some v := by
  induction kvs generalizing m with
  | nil => exact Or.inr h
  | cons x xs ih =>
    simp only [insertList, List.foldl_cons] at h
    rw [show (List.foldl (fun m kv => m.insert kv.1 kv.2)
        (m.insert x.1 x.2) xs) = insertList (m.insert x.1 x.2) xs from
        rfl] at h
    rcases ih _ h with hmem | hbase
    · exact Or.inl (List.mem_cons_of_mem _ hmem)
    · by_cases hk : k = x.1
      · subst hk
        simp [LolaVersionTable.insert] at hbase
        subst hbase
        exact Or.inl (List.mem_cons_self x xs)
      · simp only [LolaVersionTable.insert, if_neg hk] at hbase
        exact Or.inr hbase

theorem except_bind_ok {α β : Type} (a : α) (f : α → Except String β) :
    (Bind.bind (Except.ok a) f : Except String β) = f a := rfl

theorem set_once_isSome (o : Option WhyNot) (x : WhyNot) :
    (if o.isNone then some x else o).isSome = true := by
  cases o <;> simp

theorem input_version_ne_rtlola (input : Input) :
    input_version input ≠ .RTLola := by
  unfold input_version
  split <;> simp

theorem rule_out_inputs_spec (self : LolaVersionAnalysis)
    (inputs : List Input) (rac : Option WhyNot)
    (h : ∀ i ∈ inputs, self.result i._id = some (input_version i)) :
    ∃ rac2,
      self.rule_out_versions_based_on_inputs inputs rac = .ok rac2 ∧
      (rac2.isSome = true ↔
        (rac.isSome = true ∨ ∃ i ∈ inputs, input_version i = .Lola2)) := by
  induction inputs generalizing rac with
  | nil => exact ⟨rac, rfl, by simp⟩
  | cons x xs ih =>
    have hx := h x (List.mem_cons_self x xs)
    have hrest : ∀ i ∈ xs, self.result i._id = some (input_version i) :=
      fun i hi => h i (List.mem_cons_of_mem x hi)
    have hidx : self.result.index x._id = .ok (input_version x) := by
      simp [LolaVersionTable.index, hx]
    cases hv : input_version x with
    | Classic =>
      rcases ih rac hrest with ⟨rac2, heq, hiff⟩
      refine ⟨rac2, ?_, ?_⟩
      · simp only [LolaVersionAnalysis.rule_out_versions_based_on_inputs,
          hidx, hv, except_bind_ok]
        exact heq
      · rw [hiff, List.exists_mem_cons_iff]
        simp [hv]
    | Lola2 =>
      rcases ih
          (if rac.isNone then
            some (x.name.span, "Parameterized input stream")
          else rac) hrest with ⟨rac2, heq, hiff⟩
      refine ⟨rac2, ?_, ?_⟩
      · simp only [LolaVersionAnalysis.rule_out_versions_based_on_inputs,
          hidx, hv, except_bind_ok]
        exact heq
      · rw [hiff, List.exists_mem_cons_iff]
        simp [hv, set_once_isSome]
    | RTLola => exact absurd hv (input_version_ne_rtlola x)

theorem rule_out_outputs_spec (self : LolaVersionAnalysis)
    (outputs : List Output) (rac ral : Option WhyNot)
    (h : ∀ o ∈ outputs, self.result o._id = some (output_version o)) :
    ∃ rac2 ral2,
      self.rule_out_versions_based_on_outputs outputs rac ral =
        .ok (rac2, ral2) ∧
      (rac2.isSome = true ↔
        (rac.isSome = true ∨ ∃ o ∈ outputs, output_version o ≠ .Classic)) ∧
      (ral2.isSome = true ↔
        (ral.isSome = true ∨ ∃ o ∈ outputs, output_version o = .RTLola)) := by
  induction outputs generalizing rac ral with
  | nil => exact ⟨rac, ral, rfl, by simp, by simp⟩
  | cons x xs ih =>
    have hx := h x (List.mem_cons_self x xs)
    have hrest : ∀ o ∈ xs, self.result o._id = some (output_version o) :=
      fun o ho => h o (List.mem_cons_of_mem x ho)
    have hidx : self.result.index x._id = .ok (output_version x) := by
      simp [LolaVersionTable.index, hx]
    cases hv : output_version x with
    | Classic =>
      rcases ih rac ral hrest with ⟨rac2, ral2, heq, hiff1, hiff2⟩
      refine ⟨rac2, ral2, ?_, ?_, ?_⟩
      · simp only [LolaVersionAnalysis.rule_out_versions_based_on_outputs,
          hidx, hv, except_bind_ok]
        exact heq
      · rw [hiff1, List.exists_mem_cons_iff]
        simp [hv]
      · rw [hiff2, List.exists_mem_cons_iff]
        simp [hv]
    | Lola2 =>
      rcases ih
          (if rac.isNone then
            some (x.name.span,
              "Classic Lola is not possible due to " ++
                toString x.name.name.val ++ " being a Lola2 stream.")
          else rac) ral hrest with ⟨rac2, ral2, heq, hiff1, hiff2⟩
      refine ⟨rac2, ral2, ?_, ?_, ?_⟩
      · simp only [LolaVersionAnalysis.rule_out_versions_based_on_outputs,
          hidx, hv, except_bind_ok]
        exact heq
      · rw [hiff1, List.exists_mem_cons_iff]
        simp [hv, set_once_isSome]
      · rw [hiff2, List.exists_mem_cons_iff]
        simp [hv]
    | RTLola =>
      rcases ih
          (if rac.isNone then
            some (x.name.span,
              "Classic Lola is not possible due to " ++
                toString x.name.name.val ++ " being a RTLola stream.")
          else rac)
          (if ral.isNone then
            some (x.name.span,
              "Lola2 is not possible due to " ++
                toString x.name.name.val ++ " being a RTLola stream.")
          else ral) hrest with ⟨rac2, ral2, heq, hiff1, hiff2⟩
      refine ⟨rac2, ral2, ?_, ?_, ?_⟩
      · simp only [LolaVersionAnalysis.rule_out_versions_based_on_outputs,
          hidx, hv, except_bind_ok]
        exact heq
      · rw [hiff1, List.exists_mem_cons_iff]
        simp [hv, set_once_isSome]
      · rw [hiff2, List.exists_mem_cons_iff]
        simp [hv, set_once_isSome]

theorem rule_out_triggers_spec (self : LolaVersionAnalysis)
    (triggers : List Trigger) (rac ral : Option WhyNot)
    (h : ∀ t ∈ triggers,
      self.result t._id = some (trigger_version t)) :
    ∃ rac2 ral2,
      self.rule_out_versions_based_on_triggers triggers rac ral =
        .ok (rac2, ral2) ∧
      (rac2.isSome = true ↔
        (rac.isSome = true ∨
          ∃ t ∈ triggers, trigger_version t ≠ .Classic)) ∧
      (ral2.isSome = true ↔
        (ral.isSome = true ∨
          ∃ t ∈ triggers, trigger_version t = .RTLola)) := by
  induction triggers generalizing rac ral with
  | nil => exact ⟨rac, ral, rfl, by simp, by simp⟩
  | cons x xs ih =>
    have hx := h x (List.mem_cons_self x xs)
    have hrest : ∀ t ∈ xs, self.result t._id = some (trigger_version t) :=
      fun t ht => h t (List.mem_cons_of_mem x ht)
    have hidx : self.result.index x._id = .ok (trigger_version x) := by
      simp [LolaVersionTable.index, hx]
    cases hv : trigger_version x with
    | Classic =>
      rcases ih rac ral hrest with ⟨rac2, ral2, heq, hiff1, hiff2⟩
      refine ⟨rac2, ral2, ?_, ?_, ?_⟩
      · simp only [LolaVersionAnalysis.rule_out_versions_based_on_triggers,
          hidx, hv, except_bind_ok]
        exact heq
      · rw [hiff1, List.exists_mem_cons_iff]
        simp [hv]
      · rw [hiff2, List.exists_mem_cons_iff]
        simp [hv]
    | Lola2 =>
      rcases ih
          (if rac.isNone then
            some
              (match x.name with
               | none => x.span
               | some trigger_name => trigger_name.span,
                "Classic Lola is not possible due to this being a Lola2 trigger.")
          else rac) ral hrest with ⟨rac2, ral2, heq, hiff1, hiff2⟩
      refine ⟨rac2, ral2, ?_, ?_, ?_⟩
      · simp only [LolaVersionAnalysis.rule_out_versions_based_on_triggers,
          hidx, hv, except_bind_ok]
        exact heq
      · rw [hiff1, List.exists_mem_cons_iff]
        simp [hv, set_once_isSome]
      · rw [hiff2, List.exists_mem_cons_iff]
        simp [hv]
    | RTLola =>
      rcases ih
          (if rac.isNone then
            some
              (match x.name with
               | none => x.span
               | some trigger_name => trigger_name.span,
                "Classic Lola is not possible due to this being a RTLola trigger.")
          else rac)
          (if ral.isNone then
            some
              (match x.name with
               | none => x.span
               | some trigger_name => trigger_name.span,
                "Lola2 is not possible due to this being a RTLola trigger.")
          else ral) hrest with ⟨rac2, ral2, heq, hiff1, hiff2⟩
      refine ⟨rac2, ral2, ?_, ?_, ?_⟩
      · simp only [LolaVersionAnalysis.rule_out_versions_based_on_triggers,
          hidx, hv, except_bind_ok]
        exact heq
      · rw [hiff1, List.exists_mem_cons_iff]
        simp [hv, set_once_isSome]
      · rw [hiff2, List.exists_mem_cons_iff]
        simp [hv, set_once_isSome]

theorem except_pure {β : Type} (a : β) :
    (Pure.pure a : Except String β) = .ok a := rfl

theorem input_version_lola2_iff (input : Input) :
    input_version input = .Lola2 ↔ input_version input ≠ .Classic := by
  cases hv : input_version input with
  | Classic => simp
  | Lola2 => simp
  | RTLola => exact absurd hv (input_version_ne_rtlola input)

theorem first_pass_lookup_input (spec : LolaSpec)
    (hnd : (spec_node_ids spec).Nodup) (i : Input)
    (hi : i ∈ spec.inputs) :
    (LolaVersionAnalysis.new.first_pass spec).result i._id =
      some (input_version i) := by
  rw [first_pass_result]
  apply insertList_lookup_mem_nodup
  · rw [version_entries_keys]
    exact hnd
  · unfold version_entries
    exact List.mem_append_left _
      (List.mem_append_left _ (List.mem_map_of_mem _ hi))

theorem first_pass_lookup_output (spec : LolaSpec)
    (hnd : (spec_node_ids spec).Nodup) (o : Output)
    (ho : o ∈ spec.outputs) :
    (LolaVersionAnalysis.new.first_pass spec).result o._id =
      some (output_version o) := by
  rw [first_pass_result]
  apply insertList_lookup_mem_nodup
  · rw [version_entries_keys]
    exact hnd
  · unfold version_entries
    exact List.mem_append_left _
      (List.mem_append_right _ (List.mem_map_of_mem _ ho))

theorem first_pass_lookup_trigger (spec : LolaSpec)
    (hnd : (spec_node_ids spec).Nodup) (t : Trigger)
    (ht : t ∈ spec.trigger) :
    (LolaVersionAnalysis.new.first_pass spec).result t._id =
      some (trigger_version t) := by
  rw [first_pass_result]
  apply insertList_lookup_mem_nodup
  · rw [version_entries_keys]
    exact hnd
  · unfold version_entries
    exact List.mem_append_right _ (List.mem_map_of_mem _ ht)

theorem analyse_eq_global (handler : Handler) (spec : LolaSpec)
    (hnd : (spec_node_ids spec).Nodup) :
    LolaVersionAnalysis.new.analyse handler spec =
      .ok (LolaVersionAnalysis.new.first_pass spec,
        some (global_version spec)) := by
  have hin := fun i hi => first_pass_lookup_input spec hnd i hi
  have hout := fun o ho => first_pass_lookup_output spec hnd o ho
  have htrig := fun t ht => first_pass_lookup_trigger spec hnd t ht
  rcases rule_out_inputs_spec (LolaVersionAnalysis.new.first_pass spec)
      spec.inputs none hin with ⟨rac1, heq1, hiff1⟩
  rcases rule_out_outputs_spec (LolaVersionAnalysis.new.first_pass spec)
      spec.outputs rac1 none hout with ⟨rac2, ral2, heq2, hiff2a, hiff2b⟩
  rcases rule_out_triggers_spec (LolaVersionAnalysis.new.first_pass spec)
      spec.trigger rac2 ral2 htrig with ⟨rac3, ral3, heq3, hiff3a, hiff3b⟩
  have hracs : rac3.isSome = true ↔
      ((∃ i ∈ spec.inputs, input_version i ≠ .Classic) ∨
        (∃ o ∈ spec.outputs, output_version o ≠ .Classic) ∨
        (∃ t ∈ spec.trigger, trigger_version t ≠ .Classic)) := by
    rw [hiff3a, hiff2a, hiff1]
    simp only [Option.isSome_none, Bool.false_eq_true, false_or]
    constructor
    · rintro ((h | h) | h)
      · exact Or.inl
          (h.imp fun i hi => ⟨hi.1, (input_version_lola2_iff i).mp hi.2⟩)
      · exact Or.inr (Or.inl h)
      · exact Or.inr (Or.inr h)
    · rintro (h | h | h)
      · exact Or.inl (Or.inl
          (h.imp fun i hi => ⟨hi.1, (input_version_lola2_iff i).mpr hi.2⟩))
      · exact Or.inl (Or.inr h)
      · exact Or.inr h
  have hrals : ral3.isSome = true ↔
      ((∃ o ∈ spec.outputs, output_version o = .RTLola) ∨
        (∃ t ∈ spec.trigger, trigger_version t = .RTLola)) := by
    rw [hiff3b, hiff2b]
    simp only [Option.isSome_none, Bool.false_eq_true, false_or]
  have hnc : has_non_classic spec = true ↔
      ((∃ i ∈ spec.inputs, input_version i ≠ .Classic) ∨
        (∃ o ∈ spec.outputs, output_version o ≠ .Classic) ∨
        (∃ t ∈ spec.trigger, trigger_version t ≠ .Classic)) := by
    simp [has_non_classic, List.any_eq_true, or_assoc]
  have hrt : has_rtlola spec = true ↔
      ((∃ o ∈ spec.outputs, output_version o = .RTLola) ∨
        (∃ t ∈ spec.trigger, trigger_version t = .RTLola)) := by
    simp [has_rtlola, List.any_eq_true]
  have hrac3 : rac3.isSome = has_non_classic spec := by
    cases hb : has_non_classic spec
    · rcases hon : rac3 with _ | w
      · rfl
      · exact absurd (hnc.mpr (hracs.mp (by simp [hon]))) (by simp [hb])
    · rcases hon : rac3 with _ | w
      · have := hracs.mpr (hnc.mp hb)
        simp [hon] at this
      · rfl
  have hral3 : ral3.isSome = has_rtlola spec := by
    cases hb : has_rtlola spec
    · rcases hon : ral3 with _ | w
      · rfl
      · exact absurd (hrt.mpr (hrals.mp (by simp [hon]))) (by simp [hb])
    · rcases hon : ral3 with _ | w
      · have := hrals.mpr (hrt.mp hb)
        simp [hon] at this
      · rfl
  unfold LolaVersionAnalysis.analyse LolaVersionAnalysis.analyse_with_counts
  simp only [ne_eq, not_true_eq_false, if_false, ite_false, reduceIte,
    heq1, except_bind_ok, heq2, heq3]
  have hisnone_rac : rac3.isNone = !has_non_classic spec := by
    rw [← hrac3]
    cases rac3 <;> rfl
  have hisnone_ral : ral3.isNone = !has_rtlola spec := by
    rw [← hral3]
    cases ral3 <;> rfl
  rw [hisnone_rac, hisnone_ral]
  unfold global_version
  cases hb1 : has_non_classic spec <;> cases hb2 : has_rtlola spec <;>
    simp [except_pure, except_bind_ok]

theorem except_bind_error {α β : Type} (e : String)
    (f : α → Except String β) :
    (Bind.bind (Except.error e) f : Except String β) = .error e := rfl

theorem dialect_le_rtlola (v : LanguageSpec) : dialect_le v .RTLola := by
  cases v <;> decide

theorem classic_dialect_le (d : LanguageSpec) : dialect_le .Classic d := by
  cases d <;> decide

theorem dialect_le_refl (v : LanguageSpec) : dialect_le v v :=
  Nat.le_refl _

theorem dialect_le_lola2_of_ne_rtlola (v : LanguageSpec)
    (h : v ≠ .RTLola) : dialect_le v .Lola2 := by
  cases v with
  | Classic => decide
  | Lola2 => decide
  | RTLola => exact absurd rfl h

theorem eq_lola2_of_ne (v : LanguageSpec) (h1 : v ≠ .Classic)
    (h2 : v ≠ .RTLola) : v = .Lola2 := by
  cases v with
  | Classic => exact absurd rfl h1
  | Lola2 => rfl
  | RTLola => exact absurd rfl h2

theorem version_entries_mem (spec : LolaSpec) (k : NodeId)
    (v : LanguageSpec) (h : (k, v) ∈ version_entries spec) :
    (∃ i ∈ spec.inputs, i._id = k ∧ input_version i = v) ∨
    (∃ o ∈ spec.outputs, o._id = k ∧ output_version o = v) ∨
    (∃ t ∈ spec.trigger, t._id = k ∧ trigger_version t = v) := by
  simp only [version_entries, List.mem_append, List.mem_map,
    Prod.mk.injEq] at h
  rcases h with (⟨i, hi, h1, h2⟩ | ⟨o, ho, h1, h2⟩) | ⟨t, ht, h1, h2⟩
  · exact Or.inl ⟨i, hi, h1, h2⟩
  · exact Or.inr (Or.inl ⟨o, ho, h1, h2⟩)
  · exact Or.inr (Or.inr ⟨t, ht, h1, h2⟩)

theorem analyse_with_counts_eq_ok_some (self : LolaVersionAnalysis)
    (n : Nat) (spec : LolaSpec) (s : LolaVersionAnalysis)
    (d : Option LanguageSpec)
    (h : self.analyse_with_counts n n spec = .ok (s, d)) :
    ∃ g, d = some g := by
  unfold LolaVersionAnalysis.analyse_with_counts at h
  simp only [ne_eq, not_true_eq_false, if_false, ite_false, reduceIte] at h
  rcases h1 : (self.first_pass spec).rule_out_versions_based_on_inputs
      spec.inputs none with e1 | rac1
  · rw [h1, except_bind_error] at h
    simp at h
  · rw [h1, except_bind_ok] at h
    rcases h2 : (self.first_pass spec).rule_out_versions_based_on_outputs
        spec.outputs rac1 none with e2 | ⟨rac2, ral2⟩
    · rw [h2, except_bind_error] at h
      simp at h
    · rw [h2, except_bind_ok] at h
      rcases h3 :
          (self.first_pass spec).rule_out_versions_based_on_triggers
            spec.trigger rac2 ral2 with e3 | ⟨rac3, ral3⟩
      · rw [h3, except_bind_error] at h
        simp at h
      · rw [h3, except_bind_ok] at h
        split at h <;> (try split at h) <;>
          (simp only [except_bind_ok, except_pure, Except.ok.injEq,
            Prod.mk.injEq] at h) <;>
          exact ⟨_, h.2.symm⟩

/-- C1 counterexample: the expression `cex_expr` contains a real-time
offset lookup at nesting depth two — inside the argument expression of
a stream instance — yet the first pass records `Classic` for the output
holding it and the global dialect of `cex_spec` is `Classic`, not
`RTLola`: `analyse_expression` never visits stream-instance
arguments. -/
theorem c1_stream_argument_offset_not_detected :
    containsRTDeep cex_expr = true ∧
    containsRT cex_expr = false ∧
    (LolaVersionAnalysis.new.first_pass cex_spec).result 0 =
      some .Classic ∧
    LolaVersionAnalysis.new.analyse_version ⟨0⟩ cex_spec =
      .ok (some .Classic) :=
  ⟨rfl, rfl, rfl, rfl⟩

/-- C1 (amended): for every output and trigger of a specification with
distinct node identifiers, if its expression contains a real-time
offset lookup at any nesting depth reachable by the classifier's walk —
default branches, binary/unary/ternary operands, parenthesized inners,
tuple elements, function and method arguments, and offset expressions
of lookups, but not the argument expressions of a stream instance,
which the walk skips — then the first pass records `RTLola` for that
node, and the global dialect is `RTLola` regardless of all other
streams. -/
theorem c1_realtime_contagion_amended (handler : Handler)
    (spec : LolaSpec) (hnd : (spec_node_ids spec).Nodup) :
    (∀ o ∈ spec.outputs, containsRT o.expression = true →
      (LolaVersionAnalysis.new.first_pass spec).result o._id =
        some .RTLola) ∧
    (∀ t ∈ spec.trigger, containsRT t.expression = true →
      (LolaVersionAnalysis.new.first_pass spec).result t._id =
        some .RTLola) ∧
    (((∃ o ∈ spec.outputs, containsRT o.expression = true) ∨
      (∃ t ∈ spec.trigger, containsRT t.expression = true)) →
      LolaVersionAnalysis.new.analyse_version handler spec =
        .ok (some .RTLola)) := by
  refine ⟨?_, ?_, ?_⟩
  · intro o ho hrt
    rw [first_pass_lookup_output spec hnd o ho]
    simp [output_version, hrt]
  · intro t ht hrt
    rw [first_pass_lookup_trigger spec hnd t ht]
    simp [trigger_version, hrt]
  · intro hex
    unfold LolaVersionAnalysis.analyse_version
    rw [analyse_eq_global handler spec hnd]
    have hrt : has_rtlola spec = true := by
      simp only [has_rtlola, Bool.or_eq_true, List.any_eq_true,
        decide_eq_true_eq]
      rcases hex with ⟨o, ho, hc⟩ | ⟨t, ht, hc⟩
      · exact Or.inl ⟨o, ho, by simp [output_version, hc]⟩
      · exact Or.inr ⟨t, ht, by simp [trigger_version, hc]⟩
    have hnc : has_non_classic spec = true := by
      simp only [has_non_classic, Bool.or_eq_true, List.any_eq_true,
        decide_eq_true_eq]
      rcases hex with ⟨o, ho, hc⟩ | ⟨t, ht, hc⟩
      · exact Or.inl (Or.inr ⟨o, ho, by simp [output_version, hc]⟩)
      · exact Or.inr ⟨t, ht, by simp [trigger_version, hc]⟩
    simp [global_version, hnc, hrt, Except.map]

/-- C1 witness: the amended contagion theorem applied to the concrete
one-output specification `output test: Int8 := stream[3s]`. -/
theorem c1_realtime_contagion_amended_witness :
    (LolaVersionAnalysis.new.first_pass ex_rt_spec).result 0 =
      some .RTLola ∧
    LolaVersionAnalysis.new.analyse_version ⟨0⟩ ex_rt_spec =
      .ok (some .RTLola) := by
  have h := c1_realtime_contagion_amended ⟨0⟩ ex_rt_spec (by decide)
  exact ⟨h.1 ex_rt_output (List.mem_cons_self _ _) rfl,
    h.2.2 (Or.inl ⟨ex_rt_output, List.mem_cons_self _ _, rfl⟩)⟩

/-- C2: on every specification with distinct node identifiers the
classifier returns a global dialect; it lies in the three-point dialect
lattice {Classic, Lola2, RTLola} and is the least dialect, in the
expressiveness order, that is above every per-node result recorded in
the first pass. -/
theorem c2_global_dialect_is_least_upper_bound (handler : Handler)
    (spec : LolaSpec) (hnd : (spec_node_ids spec).Nodup) :
    ∃ g,
      LolaVersionAnalysis.new.analyse_version handler spec =
        .ok (some g) ∧
      (g = .Classic ∨ g = .Lola2 ∨ g = .RTLola) ∧
      (∀ k v,
        (LolaVersionAnalysis.new.first_pass spec).result k = some v →
        dialect_le v g) ∧
      (∀ d,
        (∀ k v,
          (LolaVersionAnalysis.new.first_pass spec).result k = some v →
          dialect_le v d) →
        dialect_le g d) := by
  refine ⟨global_version spec, ?_, ?_, ?_, ?_⟩
  · unfold LolaVersionAnalysis.analyse_version
    rw [analyse_eq_global handler spec hnd]
    rfl
  · cases h1 : has_non_classic spec <;> cases h2 : has_rtlola spec <;>
      simp [global_version, h1, h2]
  · intro k v hkv
    rw [first_pass_result] at hkv
    rcases insertList_lookup_inv _ _ _ _ hkv with hmem | hbase
    · cases h1 : has_non_classic spec with
      | false =>
        have hall : ∀ w, (k, w) ∈ version_entries spec → w = .Classic := by
          intro w hw
          simp only [has_non_classic, Bool.or_eq_false_iff,
            List.any_eq_false, decide_eq_true_eq] at h1
          rcases version_entries_mem spec k w hw with
            ⟨i, hi, _, hv⟩ | ⟨o, ho, _, hv⟩ | ⟨t, ht, _, hv⟩
          · have := h1.1.1 i hi
            simp only [ne_eq, Decidable.not_not] at this
            rw [← hv, this]
          · have := h1.1.2 o ho
            simp only [ne_eq, Decidable.not_not] at this
            rw [← hv, this]
          · have := h1.2 t ht
            simp only [ne_eq, Decidable.not_not] at this
            rw [← hv, this]
        rw [hall v hmem]
        simp only [global_version, h1, Bool.false_eq_true, if_false]
        exact classic_dialect_le _
      | true =>
        cases h2 : has_rtlola spec with
        | false =>
          have hne : v ≠ .RTLola := by
            simp only [has_rtlola, Bool.or_eq_false_iff,
              List.any_eq_false, decide_eq_true_eq] at h2
            rcases version_entries_mem spec k v hmem with
              ⟨i, _, _, hv⟩ | ⟨o, ho, _, hv⟩ | ⟨t, ht, _, hv⟩
            · rw [← hv]
              exact input_version_ne_rtlola i
            · rw [← hv]
              exact h2.1 o ho
            · rw [← hv]
              exact h2.2 t ht
          simp only [global_version, h1, h2, if_true, Bool.false_eq_true,
            if_false, reduceIte]
          exact dialect_le_lola2_of_ne_rtlola v hne
        | true =>
          simp only [global_version, h1, h2, if_true, reduceIte]
          exact dialect_le_rtlola v
    · simp [LolaVersionAnalysis.new, LolaVersionTable.empty] at hbase
  · intro d hd
    cases h1 : has_non_classic spec with
    | false =>
      simp only [global_version, h1, Bool.false_eq_true, if_false]
      exact classic_dialect_le d
    | true =>
      cases h2 : has_rtlola spec with
      | false =>
        simp only [global_version, h1, h2, if_true, Bool.false_eq_true,
          if_false, reduceIte]
        have h2f : (∀ o ∈ spec.outputs, output_version o ≠ .RTLola) ∧
            (∀ t ∈ spec.trigger, trigger_version t ≠ .RTLola) := by
          simp only [has_rtlola, Bool.or_eq_false_iff,
            List.any_eq_false, decide_eq_true_eq] at h2
          exact h2
        simp only [has_non_classic, Bool.or_eq_true, List.any_eq_true,
          decide_eq_true_eq] at h1
        rcases h1 with (⟨i, hi, hv⟩ | ⟨o, ho, hv⟩) | ⟨t, ht, hv⟩
        · have hmap := first_pass_lookup_input spec hnd i hi
          have hle := hd i._id (input_version i) hmap
          rw [eq_lola2_of_ne (input_version i) hv
            (input_version_ne_rtlola i)] at hle
          exact hle
        · have hmap := first_pass_lookup_output spec hnd o ho
          have hle := hd o._id (output_version o) hmap
          rw [eq_lola2_of_ne (output_version o) hv (h2f.1 o ho)] at hle
          exact hle
        · have hmap := first_pass_lookup_trigger spec hnd t ht
          have hle := hd t._id (trigger_version t) hmap
          rw [eq_lola2_of_ne (trigger_version t) hv (h2f.2 t ht)] at hle
          exact hle
      | true =>
        simp only [global_version, h1, h2, if_true, reduceIte]
        simp only [has_rtlola, Bool.or_eq_true, List.any_eq_true,
          decide_eq_true_eq] at h2
        rcases h2 with ⟨o, ho, hv⟩ | ⟨t, ht, hv⟩
        · have hmap := first_pass_lookup_output spec hnd o ho
          have hle := hd o._id (output_version o) hmap
          rw [hv] at hle
          exact hle
        · have hmap := first_pass_lookup_trigger spec hnd t ht
          have hle := hd t._id (trigger_version t) hmap
          rw [hv] at hle
          exact hle

/-- C2 witness: the least-upper-bound theorem applied to the concrete
one-output specification `output test: Int8 := stream[3s]`. -/
theorem c2_global_dialect_is_least_upper_bound_witness :
    ∃ g,
      LolaVersionAnalysis.new.analyse_version ⟨0⟩ ex_rt_spec =
        .ok (some g) ∧
      (g = .Classic ∨ g = .Lola2 ∨ g = .RTLola) ∧
      (∀ k v,
        (LolaVersionAnalysis.new.first_pass ex_rt_spec).result k =
          some v → dialect_le v g) ∧
      (∀ d,
        (∀ k v,
          (LolaVersionAnalysis.new.first_pass ex_rt_spec).result k =
            some v → dialect_le v d) →
        dialect_le g d) :=
  c2_global_dialect_is_least_upper_bound ⟨0⟩ ex_rt_spec (by decide)

/-- C4: the classifier returns no dialect (the Option is `none`) for
exactly the runs in which the two reads of the diagnostics sink's
emitted-error counter differ — for a monotone counter, in which the
count strictly increased during the first pass; on a specification with
distinct node identifiers and no counter movement it always returns a
dialect, and when both Classic and Lola2 have been disqualified that
dialect is the universal fallback `RTLola`. -/
theorem c4_none_iff_error_counter_advanced (self : LolaVersionAnalysis)
    (n0 n1 : Nat) (spec : LolaSpec) (handler : Handler)
    (hnd : (spec_node_ids spec).Nodup) (hmono : n0 ≤ n1) :
    ((∃ s, self.analyse_with_counts n0 n1 spec = .ok (s, none)) ↔
      n0 < n1) ∧
    (∃ g,
      LolaVersionAnalysis.new.analyse_version handler spec =
        .ok (some g)) ∧
    (has_non_classic spec = true → has_rtlola spec = true →
      LolaVersionAnalysis.new.analyse_version handler spec =
        .ok (some .RTLola)) := by
  refine ⟨⟨?_, ?_⟩, ?_, ?_⟩
  · rintro ⟨s, hs⟩
    by_contra hlt
    have heq : n0 = n1 := Nat.le_antisymm hmono (Nat.le_of_not_lt hlt)
    subst heq
    rcases analyse_with_counts_eq_ok_some self n0 spec s none hs with
      ⟨g, hg⟩
    simp at hg
  · intro hlt
    refine ⟨self.first_pass spec, ?_⟩
    unfold LolaVersionAnalysis.analyse_with_counts
    simp [Nat.ne_of_lt hlt, except_pure]
  · refine ⟨global_version spec, ?_⟩
    unfold LolaVersionAnalysis.analyse_version
    rw [analyse_eq_global handler spec hnd]
    rfl
  · intro h1 h2
    unfold LolaVersionAnalysis.analyse_version
    rw [analyse_eq_global handler spec hnd]
    simp [global_version, h1, h2, Except.map]

/-- C4 witness: the counter theorem applied with counter reads 0 and 1
and the concrete specification `output test: Int8 := stream[3s]`. -/
theorem c4_none_iff_error_counter_advanced_witness :
    ((∃ s,
      LolaVersionAnalysis.new.analyse_with_counts 0 1 ex_rt_spec =
        .ok (s, none)) ↔ 0 < 1) ∧
    (∃ g,
      LolaVersionAnalysis.new.analyse_version ⟨0⟩ ex_rt_spec =
        .ok (some g)) ∧
    (has_non_classic ex_rt_spec = true → has_rtlola ex_rt_spec = true →
      LolaVersionAnalysis.new.analyse_version ⟨0⟩ ex_rt_spec =
        .ok (some .RTLola)) :=
  c4_none_iff_error_counter_advanced LolaVersionAnalysis.new 0 1
    ex_rt_spec ⟨0⟩ (by decide) (by decide)

/-- C7: the per-node classifier records `Classic` or `Lola2` for every
input and never `RTLola`, and consequently, for a first-pass result map
of a specification with distinct node identifiers, the
input-reconciliation walk never reaches its `unreachable!()` branch:
it returns without error for every initial reason state. -/
theorem c7_input_reconciliation_unreachable_safe
    (self : LolaVersionAnalysis) (input : Input) (spec : LolaSpec)
    (rac : Option WhyNot) (hnd : (spec_node_ids spec).Nodup) :
    ((self.analyse_input input).result input._id =
        some (input_version input) ∧
      (input_version input = .Classic ∨ input_version input = .Lola2)) ∧
    ∃ rac2,
      (LolaVersionAnalysis.new.first_pass
          spec).rule_out_versions_based_on_inputs spec.inputs rac =
        .ok rac2 := by
  refine ⟨⟨?_, ?_⟩, ?_⟩
  · rw [analyse_input_eq]
    simp [LolaVersionTable.insert]
  · unfold input_version
    split <;> simp
  · rcases rule_out_inputs_spec (LolaVersionAnalysis.new.first_pass spec)
        spec.inputs rac
        (fun i hi => first_pass_lookup_input spec hnd i hi) with
      ⟨rac2, heq, _⟩
    exact ⟨rac2, heq⟩

/-- C7 witness: the input-safety theorem applied to the concrete input
`input test : Int8` and its one-input specification. -/
theorem c7_input_reconciliation_unreachable_safe_witness :
    ((LolaVersionAnalysis.new.analyse_input ex_input).result 0 =
        some (input_version ex_input) ∧
      (input_version ex_input = .Classic ∨
        input_version ex_input = .Lola2)) ∧
    ∃ rac2,
      (LolaVersionAnalysis.new.first_pass
          ex_input_spec).rule_out_versions_based_on_inputs
          ex_input_spec.inputs none =
        .ok rac2 :=
  c7_input_reconciliation_unreachable_safe LolaVersionAnalysis.new
    ex_input ex_input_spec none (by decide)

/-- C10: the first pass calls no method of the diagnostics sink, so the
two counter reads of `analyse` observe the same value and `analyse` is
the counter-parameterized body applied to two equal reads; whenever it
returns, the returned dialect option is `some`; and the result map holds
an entry for every input, output, and trigger of the specification
before the counter check. -/
theorem c10_first_pass_pure_analyse_total (self : LolaVersionAnalysis)
    (handler : Handler) (spec : LolaSpec) :
    (self.analyse handler spec =
      self.analyse_with_counts handler.emitted_errors
        handler.emitted_errors spec) ∧
    (∀ s d, self.analyse handler spec = .ok (s, d) → ∃ g, d = some g) ∧
    (∀ i ∈ spec.inputs,
      ((self.first_pass spec).result i._id).isSome = true) ∧
    (∀ o ∈ spec.outputs,
      ((self.first_pass spec).result o._id).isSome = true) ∧
    (∀ t ∈ spec.trigger,
      ((self.first_pass spec).result t._id).isSome = true) := by
  refine ⟨rfl, ?_, ?_, ?_, ?_⟩
  · intro s d h
    exact analyse_with_counts_eq_ok_some self handler.emitted_errors
      spec s d h
  · intro i hi
    rw [first_pass_result]
    apply insertList_isSome_of_mem
    rw [version_entries_keys]
    unfold spec_node_ids
    exact List.mem_append_left _
      (List.mem_append_left _ (List.mem_map_of_mem _ hi))
  · intro o ho
    rw [first_pass_result]
    apply insertList_isSome_of_mem
    rw [version_entries_keys]
    unfold spec_node_ids
    exact List.mem_append_left _
      (List.mem_append_right _ (List.mem_map_of_mem _ ho))
  · intro t ht
    rw [first_pass_result]
    apply insertList_isSome_of_mem
    rw [version_entries_keys]
    unfold spec_node_ids
    exact List.mem_append_right _ (List.mem_map_of_mem _ ht)

/-- C10 witness: the purity and totality theorem applied to the
concrete one-output specification `output test: Int8 := stream[3s]`. -/
theorem c10_first_pass_pure_analyse_total_witness :
    (LolaVersionAnalysis.new.analyse ⟨0⟩ ex_rt_spec =
      LolaVersionAnalysis.new.analyse_with_counts 0 0 ex_rt_spec) ∧
    ((LolaVersionAnalysis.new.first_pass ex_rt_spec).result 0).isSome =
      true := by
  have h := c10_first_pass_pure_analyse_total LolaVersionAnalysis.new
    ⟨0⟩ ex_rt_spec
  exact ⟨h.1, h.2.2.2.1 ex_rt_output (List.mem_cons_self _ _)⟩

/-- C3: on the specification `trigger test := false` the top-level
dispatch of `parse` aborts in its `Rule::Trigger` arm (the source's
`unimplemented!()`), so the front end builds no AST — although the
orphaned `parse_trigger` builder produces exactly the expected
one-trigger AST, and on that AST the classifier records `Classic` for
the trigger and returns `Classic` as the global dialect, as the
repository's own classifier test expects. -/
theorem c3_trigger_clause_dispatch_vs_classifier :
    parse 9 c3_spec_pair =
      .error "not implemented: Rule::Trigger in parse" ∧
    parse_trigger 9 LolaSpec.new c3_trigger_pair =
      .ok
        ({ language := none, constants := [], inputs := [],
           outputs := [], trigger := [],
           symbols := ⟨[("test", ⟨0⟩)], ["test"]⟩ },
          c3_trigger) ∧
    (LolaVersionAnalysis.new.first_pass c3_spec).result 0 =
      some .Classic ∧
    LolaVersionAnalysis.new.analyse_version ⟨0⟩ c3_spec =
      .ok (some .Classic) :=
  ⟨rfl, rfl, rfl, rfl⟩

set_option maxRecDepth 8192 in
/-- C5 counterexample: in the operator sequence `1 || 2 && 3` built
with the whole sequence's span 0–11, the inner `And` sub-expression —
whose own text `2 && 3` occupies bytes 5–11 — is stamped with the span
0–11 of the whole sequence: the reduce closure passes the enclosing
`span` argument to every binary node it creates. -/
theorem c5_binary_subexpression_span_counterexample :
    ∃ sp : Span,
      build_expression_ast 9 LolaSpec.new c5_tokens ⟨0, 11⟩ =
        .ok (LolaSpec.new,
          Expression.new
            (.Binary .Or
              (Expression.new (.Lit (Literal.new_int 1 ⟨0, 1⟩)) ⟨0, 1⟩)
              (Expression.new
                (.Binary .And
                  (Expression.new (.Lit (Literal.new_int 2 ⟨5, 6⟩))
                    ⟨5, 6⟩)
                  (Expression.new (.Lit (Literal.new_int 3 ⟨10, 11⟩))
                    ⟨10, 11⟩))
                sp))
            ⟨0, 11⟩) ∧
      sp = ⟨0, 11⟩ ∧ sp ≠ ⟨5, 11⟩ :=
  ⟨⟨0, 11⟩, rfl, rfl, by decide⟩

set_option maxRecDepth 8192 in
/-- C5 (amended): primary sub-expressions carry the span of their own
token, while every binary node produced by the reduce step of the
expression builder — the root and each nested one — carries the span
argument passed to `build_expression_ast`, the range of the whole
expression sequence, not the range of its own operands: shown here
parametrically in all token spans for the sequence shape
`lit || lit && lit`. -/
theorem c5_binary_span_amended (sa so sb sd sc s : Span) :
    build_expression_ast 9 LolaSpec.new
      (.cons (lit_pair "1" sa)
        (.cons (op_pair .Or so)
          (.cons (lit_pair "2" sb)
            (.cons (op_pair .And sd)
              (.cons (lit_pair "3" sc) .nil))))) s =
    .ok (LolaSpec.new,
      Expression.new
        (.Binary .Or
          (Expression.new (.Lit (Literal.new_int 1 sa)) sa)
          (Expression.new
            (.Binary .And
              (Expression.new (.Lit (Literal.new_int 2 sb)) sb)
              (Expression.new (.Lit (Literal.new_int 3 sc)) sc))
            s))
        s) := rfl

/-- C6: the `PREC_CLIMBER` table orders the operators — logical-or (1)
below logical-and (2), below equality (3), relational (4), additive
(5), multiplicative (6) and power (7), all left-associative except the
right-associative power — and consequently the sequence `a || b && c`
builds to `Or(a, And(b, c))`, which differs from `And(Or(a, b), c)`. -/
theorem c6_precedence_table_and_or_and :
    (op_prec .Or = some (1, .Left) ∧ op_prec .And = some (2, .Left) ∧
      op_prec .Equal = some (3, .Left) ∧
      op_prec .NotEqual = some (3, .Left) ∧
      op_prec .LessThan = some (4, .Left) ∧
      op_prec .LessThanOrEqual = some (4, .Left) ∧
      op_prec .MoreThan = some (4, .Left) ∧
      op_prec .MoreThanOrEqual = some (4, .Left) ∧
      op_prec .Add = some (5, .Left) ∧
      op_prec .Subtract = some (5, .Left) ∧
      op_prec .Multiply = some (6, .Left) ∧
      op_prec .Divide = some (6, .Left) ∧
      op_prec .Mod = some (6, .Left) ∧
      op_prec .Power = some (7, .Right)) ∧
    (∃ sp2,
      build_expression_ast 9 LolaSpec.new c6_tokens ⟨0, 11⟩ =
        .ok (sp2, c6_or_result)) ∧
    c6_or_result ≠ c6_and_result := by
  refine ⟨by decide, ⟨_, rfl⟩, ?_⟩
  simp [c6_or_result, c6_and_result, Expression.new]

/-- C8: interning is idempotent — a second call with the same text
returns the same symbol and leaves the table unchanged; a string never
seen before is allocated the next sequential symbol; on a well-formed
table within the `u32` capacity, resolving the symbol returned by
interning yields the interned string back, the table stays well-formed,
and every previously allocated symbol keeps resolving to its string
after any further interning. -/
theorem c8_symbol_interning_roundtrip (t : SymbolTable) (s u : String)
    (hwf : t.WF) (hcap : t.strings.length < 2 ^ 32) :
    ((t.get_symbol_for s).2.get_symbol_for s =
      ((t.get_symbol_for s).1, (t.get_symbol_for s).2)) ∧
    (t.names.find? (fun kv => kv.1 = s) = none →
      (t.get_symbol_for s).1 = ⟨t.strings.length⟩) ∧
    ((t.get_symbol_for s).2.get_string (t.get_symbol_for s).1 =
      some s) ∧
    ((t.get_symbol_for s).2.WF) ∧
    (∀ sym : Symbol, sym.val < t.strings.length →
      (t.get_symbol_for u).2.get_string sym = t.get_string sym) := by
  have hmod : t.strings.length % 2 ^ 32 = t.strings.length :=
    Nat.mod_eq_of_lt hcap
  have hpersist : ∀ sym : Symbol, sym.val < t.strings.length →
      (t.get_symbol_for u).2.get_string sym = t.get_string sym := by
    intro sym hsym
    unfold SymbolTable.get_symbol_for
    cases hfu : t.names.find? (fun kv => decide (kv.1 = u)) with
    | some kv => rfl
    | none =>
      simp only [SymbolTable.get_string, Symbol.to_usize]
      exact List.get?_append hsym
  cases hfind : t.names.find? (fun kv => decide (kv.1 = s)) with
  | some kv =>
    have hkv1 : kv.1 = s := by
      have := List.find?_some hfind
      simpa using this
    have hmem := List.mem_of_find?_eq_some hfind
    refine ⟨?_, ?_, ?_, ?_, hpersist⟩
    · simp [SymbolTable.get_symbol_for, hfind]
    · intro h
      exact Option.noConfusion h
    · simp only [SymbolTable.get_symbol_for, hfind,
        SymbolTable.get_string, Symbol.to_usize]
      rw [(hwf kv hmem).2, hkv1]
    · simp only [SymbolTable.get_symbol_for, hfind]
      exact hwf
  | none =>
    have hfind2 :
        (t.names ++
            [(s, (⟨t.strings.length % 2 ^ 32⟩ : Symbol))]).find?
            (fun kv => decide (kv.1 = s)) =
          some (s, (⟨t.strings.length % 2 ^ 32⟩ : Symbol)) := by
      rw [List.find?_append, hfind]
      simp [List.find?]
    refine ⟨?_, ?_, ?_, ?_, hpersist⟩
    · simp [SymbolTable.get_symbol_for, hfind, hfind2]
    · intro _
      simp only [SymbolTable.get_symbol_for, hfind]
      exact congrArg Symbol.mk hmod
    · simp only [SymbolTable.get_symbol_for, hfind,
        SymbolTable.get_string, Symbol.to_usize, hmod]
      exact List.get?_concat_length t.strings s
    · simp only [SymbolTable.get_symbol_for, hfind]
      intro p hp
      rcases List.mem_append.mp hp with hold | hnew
      · have h1 := hwf p hold
        refine ⟨?_, ?_⟩
        · simp only [List.length_append, List.length_cons,
            List.length_nil]
          omega
        · rw [List.get?_append h1.1]
          exact h1.2
      · simp only [List.mem_singleton] at hnew
        subst hnew
        refine ⟨?_, ?_⟩
        · simp only [List.length_append, List.length_cons,
            List.length_nil]
          omega
        · simp only [Symbol.to_usize, hmod]
          exact List.get?_concat_length t.strings s

/-- C8 witness: the interning theorem applied to the empty symbol table
and the strings `a` and `b`. -/
theorem c8_symbol_interning_roundtrip_witness :
    ((SymbolTable.new.get_symbol_for "a").2.get_symbol_for "a" =
      ((SymbolTable.new.get_symbol_for "a").1,
        (SymbolTable.new.get_symbol_for "a").2)) ∧
    (SymbolTable.new.names.find? (fun kv => kv.1 = "a") = none →
      (SymbolTable.new.get_symbol_for "a").1 =
        ⟨SymbolTable.new.strings.length⟩) ∧
    ((SymbolTable.new.get_symbol_for "a").2.get_string
      (SymbolTable.new.get_symbol_for "a").1 = some "a") ∧
    ((SymbolTable.new.get_symbol_for "a").2.WF) ∧
    (∀ sym : Symbol, sym.val < SymbolTable.new.strings.length →
      (SymbolTable.new.get_symbol_for "b").2.get_string sym =
        SymbolTable.new.get_string sym) :=
  c8_symbol_interning_roundtrip SymbolTable.new "a" "b"
    (by intro p hp; simp [SymbolTable.new] at hp) (by decide)

theorem parse_inputs_loop_spec (l : List (Pair × Pair)) :
    ∀ (spec : LolaSpec) (acc : List Input),
    (∀ pq ∈ l, pq.1.rule = .Ident ∧ pq.2.rule = .Type ∧
      ∃ np rest, pq.2.children = PairList.cons np rest ∧
        np.rule = .Ident) →
    ∃ spec2 inputs,
      parse_inputs_loop spec (interleave_pairs l) acc =
        .ok (spec2, acc ++ inputs) ∧
      inputs.length = l.length ∧
      inputs.map (fun i => i.name.span) = l.map (fun pq => pq.1.span) ∧
      inputs.map (fun i => i.span) =
        l.map (fun pq => Span.mk pq.1.span.start pq.2.span.stop) := by
  induction l with
  | nil =>
    intro spec acc _
    exact ⟨spec, [],
      by simp [interleave_pairs, parse_inputs_loop], rfl, rfl, rfl⟩
  | cons hd tl ih =>
    intro spec acc hshape
    obtain ⟨a, b⟩ := hd
    obtain ⟨h1, h2, np, rest, hch, hnp⟩ :=
      hshape (a, b) (List.mem_cons_self _ _)
    have hrest : ∀ pq ∈ tl, pq.1.rule = .Ident ∧ pq.2.rule = .Type ∧
        ∃ np rest, pq.2.children = PairList.cons np rest ∧
          np.rule = .Ident :=
      fun pq hpq => hshape pq (List.mem_cons_of_mem _ hpq)
    rcases hga : spec.symbols.get_symbol_for a.text with ⟨syma, tbla⟩
    have hpi : parse_ident spec a =
        .ok ({ spec with symbols := tbla }, Ident.new syma a.span) := by
      simp [parse_ident, h1, hga]
    cases b with
    | mk brule bspan btext bchildren =>
      simp only [Pair.rule] at h2
      subst h2
      simp only [Pair.children] at hch
      subst hch
      rcases hgb : tbla.get_symbol_for np.text with ⟨symb, tblb⟩
      have hpt :
          parse_type ({ spec with symbols := tbla })
            (.mk .Type bspan btext (.cons np rest)) =
          .ok ({ spec with symbols := tblb },
            AstType.new_simple symb np.span) := by
        unfold parse_type parse_type_loop
        simp [hnp, hgb]
      rcases ih { spec with symbols := tblb }
          (acc ++
            [{ _id := 0, name := Ident.new syma a.span, params := [],
               ty := AstType.new_simple symb np.span,
               span := ⟨a.span.start, bspan.stop⟩ }]) hrest with
        ⟨spec2, inputs2, heq, hlen, hm1, hm2⟩
      refine ⟨spec2,
        { _id := 0, name := Ident.new syma a.span, params := [],
          ty := AstType.new_simple symb np.span,
          span := ⟨a.span.start, bspan.stop⟩ } :: inputs2,
        ?_, ?_, ?_, ?_⟩
      · have hgoal :
            parse_inputs_loop { spec with symbols := tblb }
              (interleave_pairs tl)
              (acc ++
                [{ _id := 0, name := Ident.new syma a.span,
                   params := [], ty := AstType.new_simple symb np.span,
                   span := ⟨a.span.start, bspan.stop⟩ }]) =
            .ok (spec2,
              acc ++
                { _id := 0, name := Ident.new syma a.span, params := [],
                  ty := AstType.new_simple symb np.span,
                  span := ⟨a.span.start, bspan.stop⟩ } :: inputs2) := by
          rw [heq]
          simp [List.append_assoc]
        simp only [interleave_pairs, parse_inputs_loop, hpi,
          except_bind_ok, hpt]
        exact hgoal
      · simp [hlen]
      · simp [hm1, Ident.new]
      · simp [hm2, Pair.span]

/-- C9: the input-list builder consumes (identifier, type) pairs
greedily until the child sequence is exhausted, producing exactly one
`Input` per pair in declared source order (shown by the name spans and
the clause spans), and asserts the produced list is non-empty (an empty
clause is rejected); on the concrete clause
`input a: Int, b: Int, c: Bool` it produces exactly three inputs whose
names resolve to `a`, `b`, `c` in order. -/
theorem c9_input_list_builder (spec : LolaSpec)
    (l : List (Pair × Pair)) (pair : Pair)
    (hrule : pair.rule = .InputStream)
    (hchildren : pair.children = interleave_pairs l)
    (hshape : ∀ pq ∈ l, pq.1.rule = .Ident ∧ pq.2.rule = .Type ∧
      ∃ np rest, pq.2.children = PairList.cons np rest ∧
        np.rule = .Ident)
    (hne : l ≠ []) :
    (∃ spec2 inputs,
      parse_inputs spec pair = .ok (spec2, inputs) ∧
      inputs.length = l.length ∧
      inputs.map (fun i => i.name.span) = l.map (fun pq => pq.1.span) ∧
      inputs.map (fun i => i.span) =
        l.map (fun pq => Span.mk pq.1.span.start pq.2.span.stop)) ∧
    (∀ q : Pair, q.rule = .InputStream → q.children = PairList.nil →
      parse_inputs spec q =
        .error "assertion failed: inputs must not be empty") ∧
    (∃ spec3 inputs3,
      parse_inputs LolaSpec.new c9_input_pair = .ok (spec3, inputs3) ∧
      inputs3.length = 3 ∧
      inputs3.map (fun i => spec3.symbols.get_string i.name.name) =
        [some "a", some "b", some "c"]) := by
  refine ⟨?_, ?_, ?_⟩
  · rcases parse_inputs_loop_spec l spec [] hshape with
      ⟨spec2, inputs, heq, hlen, hm1, hm2⟩
    have hne2 : inputs.isEmpty = false := by
      cases inputs with
      | nil =>
        exfalso
        exact hne (List.length_eq_zero.mp (hlen.symm.trans rfl))
      | cons x xs => rfl
    refine ⟨spec2, inputs, ?_, hlen, hm1, hm2⟩
    unfold parse_inputs
    rw [if_neg (by simp [hrule]), hchildren, heq, except_bind_ok]
    simp [hne2]
  · intro q hq hn
    unfold parse_inputs
    rw [if_neg (by simp [hq]), hn]
    rfl
  · exact ⟨_, _, rfl, rfl, rfl⟩

/-- C9 witness: the input-list theorem applied to the concrete clause
`input a: Int, b: Int, c: Bool`. -/
theorem c9_input_list_builder_witness :
    ∃ spec2 inputs,
      parse_inputs LolaSpec.new c9_input_pair = .ok (spec2, inputs) ∧
      inputs.length = c9_pairs.length ∧
      inputs.map (fun i => i.name.span) =
        c9_pairs.map (fun pq => pq.1.span) ∧
      inputs.map (fun i => i.span) =
        c9_pairs.map (fun pq => Span.mk pq.1.span.start pq.2.span.stop) :=
  (c9_input_list_builder LolaSpec.new c9_pairs c9_input_pair rfl rfl
    (by
      intro pq hpq
      simp only [c9_pairs, List.mem_cons, List.not_mem_nil,
        or_false] at hpq
      rcases hpq with h | h | h <;> subst h <;>
        exact ⟨rfl, rfl, _, _, rfl, rfl⟩)
    (by simp [c9_pairs])).1

end RTLola
